import Mathlib

/-!
# Smart Parking System — verification of the occupancy/allocation core

Shallow embedding of the core modules of the Smart_Parking_System repository:

* `models/parking_manager.py`  — occupancy classifier, frame-differencing
  vehicle counter, position persistence and rescaling;
* `models/parking_visualizer.py` — per-space occupancy records;
* `models/allocation_engine.py` — XGBoost-backed allocation scoring,
  feedback buffer and retraining;
* `models/vehicle_tracker.py`  — detector+association line-crossing counter;
* `ui/app.py`                  — reference-based rescaling of space rectangles.

Python dictionaries are modelled as insertion-ordered association lists
(first occurrence wins on lookup, assignment replaces in place or appends),
timestamps and float arithmetic over exact values as rationals, machine
lists as Lean lists.  The pluggable XGBoost model (`predict_proba`, `fit`)
is an external capability and is modelled as a function parameter that may
fail, mirroring how the engine calls it.
-/

namespace SmartParking

/-! ## Association-list helpers (Python `dict` with insertion order) -/

/-- First-match lookup in an association list (Python `d[k]` / `k in d`). -/
def lookupKey {α : Type} [DecidableEq α] {β : Type} (k : α) :
    List (α × β) → Option β
  | [] => none
  | (k', v) :: rest => if k' = k then some v else lookupKey k rest

/-- Python `d[k] = v`: replace the first binding of `k`, or append a new
binding at the end (dicts preserve insertion order). -/
def setKey {α : Type} [DecidableEq α] {β : Type} (k : α) (v : β) :
    List (α × β) → List (α × β)
  | [] => [(k, v)]
  | (k', v') :: rest =>
    if k' = k then (k, v) :: rest else (k', v') :: setKey k v rest

theorem lookupKey_setKey_self {α : Type} [DecidableEq α] {β : Type}
    (k : α) (v : β) (l : List (α × β)) :
    lookupKey k (setKey k v l) = some v := by
  induction l with
  | nil => simp [lookupKey, setKey]
  | cons hd tl ih =>
    obtain ⟨k', v'⟩ := hd
    by_cases h : k' = k <;> simp [lookupKey, setKey, h, ih]

theorem lookupKey_setKey_other {α : Type} [DecidableEq α] {β : Type}
    {k k' : α} (hne : k' ≠ k) (v : β) (l : List (α × β)) :
    lookupKey k' (setKey k v l) = lookupKey k' l := by
  induction l with
  | nil => simp [lookupKey, setKey, hne, Ne.symm hne]
  | cons hd tl ih =>
    obtain ⟨k'', v''⟩ := hd
    by_cases h : k'' = k
    · subst h
      simp [lookupKey, setKey, Ne.symm hne, hne]
    · by_cases h' : k'' = k' <;> simp [lookupKey, setKey, h, h', hne, ih]

/-! ## Images and rectangles

A processed frame is a grid of pixel values; `cv2.countNonZero` of the crop
`img[y:y+h, x:x+w]` counts the nonzero pixels inside the rectangle. -/

/-- A parking-space rectangle `(x, y, w, h)`, as stored in
`ParkingManager.posList`. -/
structure Rect where
  x : Int
  y : Int
  w : Int
  h : Int
deriving DecidableEq, Repr

/-- A processed (binarized) frame: `height × width` grid of pixel values,
`pix row col`. -/
structure Img where
  height : Nat
  width : Nat
  pix : Nat → Nat → Nat

/-- `cv2.countNonZero(img_pro[y:y+h, x:x+w])`: exact count of the nonzero
pixels of the crop.  Callers only evaluate it on rectangles that passed the
bounds check, where `x, y ≥ 0`. -/
def countNonZero (img : Img) (r : Rect) : Nat :=
  ((List.range r.h.toNat).map (fun dy =>
    ((List.range r.w.toNat).filter
      (fun dx => img.pix (r.y.toNat + dy) (r.x.toNat + dx) ≠ 0)).length)).sum

/-- The bounds test of `check_parking_space` (and the other per-space loops):
`y >= 0 and y + h < img_pro.shape[0] and x >= 0 and x + w < img_pro.shape[1]`.
Note the *strict* `<` against the frame height/width. -/
def inFrameStrict (img : Img) (r : Rect) : Bool :=
  0 ≤ r.y && r.y + r.h < (img.height : Int) && 0 ≤ r.x &&
    r.x + r.w < (img.width : Int)

/-- Modelled from the spec ("Spaces that fall outside frame bounds are
skipped"): a rectangle lies fully inside the frame when all of its pixel
rows `y..y+h-1` and columns `x..x+w-1` are valid indices, i.e.
`0 ≤ x, 0 ≤ y, x + w ≤ width, y + h ≤ height`.  Used to compare the code's
bounds test against the spec's notion of "fully inside". -/
def fullyInside (img : Img) (r : Rect) : Bool :=
  0 ≤ r.y && r.y + r.h ≤ (img.height : Int) && 0 ≤ r.x &&
    r.x + r.w ≤ (img.width : Int)

/-! ## `ParkingManager.check_parking_space` (parking_manager.py:176-218)

For each position, spaces inside the (strict) frame bounds are classified
free iff `countNonZero < threshold`; the free counter is the number of
processed free spaces.  Drawing side effects are not modelled. -/

/-- One loop iteration of `check_parking_space`: increment the free-space
counter when the space is processed and classified free. -/
def checkSpaceStep (img : Img) (threshold : Nat) (counter : Nat) (r : Rect) :
    Nat :=
  if inFrameStrict img r then
    if countNonZero img r < threshold then counter + 1 else counter
  else counter

/-- `check_parking_space`: the resulting `free_spaces` counter. -/
def check_parking_space (img : Img) (posList : List Rect)
    (threshold : Nat) : Nat :=
  posList.foldl (checkSpaceStep img threshold) 0

theorem check_parking_space_foldl (img : Img) (threshold : Nat)
    (l : List Rect) (n : Nat) :
    l.foldl (checkSpaceStep img threshold) n
      = n + l.foldl (checkSpaceStep img threshold) 0 := by
  induction l generalizing n with
  | nil => simp
  | cons hd tl ih =>
    rw [List.foldl_cons, List.foldl_cons, ih (checkSpaceStep img threshold n hd),
      ih (checkSpaceStep img threshold 0 hd)]
    unfold checkSpaceStep
    split <;> [skip; omega]
    split <;> omega

/-- An all-zero 100×100 frame used as a concrete test frame. -/
def zeroImg : Img := ⟨100, 100, fun _ _ => 0⟩

theorem c9_aux_foldl_skip (img : Img) (threshold : Nat) {r : Rect}
    (hr : inFrameStrict img r = false) (l1 l2 : List Rect) :
    (l1 ++ r :: l2).foldl (checkSpaceStep img threshold) 0
      = (l1 ++ l2).foldl (checkSpaceStep img threshold) 0 := by
  rw [List.foldl_append, List.foldl_append, List.foldl_cons]
  have : checkSpaceStep img threshold (l1.foldl (checkSpaceStep img threshold) 0) r
      = l1.foldl (checkSpaceStep img threshold) 0 := by
    unfold checkSpaceStep
    rw [hr]
    simp
  rw [this]

/-- C9 counterexample: the rectangle `(0, 0, 10, 100)` in a 100×100 frame
lies fully inside the frame bounds (its pixel rows are `0..99`), yet
`check_parking_space` skips it: with an all-zero frame and threshold 500 it
would be classified free if evaluated, but the free counter stays `0`
because the code's bounds test demands `y + h < height` strictly. -/
theorem c9_counterexample_edge_rect_skipped :
    fullyInside zeroImg ⟨0, 0, 10, 100⟩ = true ∧
      inFrameStrict zeroImg ⟨0, 0, 10, 100⟩ = false ∧
      check_parking_space zeroImg [⟨0, 0, 10, 100⟩] 500 = 0 := by
  refine ⟨by decide, by decide, ?_⟩
  have h : inFrameStrict zeroImg ⟨0, 0, 10, 100⟩ = false := by decide
  show checkSpaceStep zeroImg 500 0 ⟨0, 0, 10, 100⟩ = 0
  unfold checkSpaceStep
  rw [h]
  simp

/-- C9 (amended): `check_parking_space` evaluates exactly the spaces that are
*strictly* inside the frame (`y ≥ 0 ∧ x ≥ 0 ∧ y + h < height ∧ x + w < width`
— a rectangle touching the bottom or right edge is fully inside but still
skipped); every strictly-inside space is in particular fully inside; a
skipped space is dropped silently and never prevents the remaining spaces
from being processed; and the crop indexing is in-bounds for every processed
space. -/
theorem c9_skipped_space_policy :
    (∀ (img : Img) (r : Rect),
      inFrameStrict img r = true ↔
        (0 ≤ r.y ∧ 0 ≤ r.x ∧ r.y + r.h < (img.height : Int) ∧
          r.x + r.w < (img.width : Int))) ∧
    (∀ (img : Img) (r : Rect), inFrameStrict img r = true →
      fullyInside img r = true) ∧
    (∀ (img : Img) (threshold : Nat) (r : Rect), inFrameStrict img r = false →
      ∀ l1 l2 : List Rect,
        check_parking_space img (l1 ++ r :: l2) threshold
          = check_parking_space img (l1 ++ l2) threshold) ∧
    (∀ (img : Img) (r : Rect), inFrameStrict img r = true →
      ∀ dy dx : Nat, dy < r.h.toNat → dx < r.w.toNat →
        r.y.toNat + dy < img.height ∧ r.x.toNat + dx < img.width) := by
  refine ⟨?_, ?_, ?_, ?_⟩
  · intro img r
    simp only [inFrameStrict, Bool.and_eq_true, decide_eq_true_eq]
    omega
  · intro img r h
    simp only [inFrameStrict, Bool.and_eq_true, decide_eq_true_eq] at h
    simp only [fullyInside, Bool.and_eq_true, decide_eq_true_eq]
    omega
  · intro img threshold r hr l1 l2
    exact c9_aux_foldl_skip img threshold hr l1 l2
  · intro img r h dy dx hdy hdx
    simp only [inFrameStrict, Bool.and_eq_true, decide_eq_true_eq] at h
    omega

/-- C9 witness: the amended policy instantiated on a concrete in-bounds
rectangle and a concrete skipped rectangle. -/
theorem c9_skipped_space_policy_witness :
    inFrameStrict zeroImg ⟨2, 3, 4, 5⟩ = true ∧
      fullyInside zeroImg ⟨2, 3, 4, 5⟩ = true ∧
      check_parking_space zeroImg ([⟨2, 3, 4, 5⟩] ++ ⟨0, 0, 10, 100⟩ :: [])
          500
        = check_parking_space zeroImg ([⟨2, 3, 4, 5⟩] ++ []) 500 ∧
      zeroImg.height = 100 := by
  refine ⟨by decide, ?_, ?_, rfl⟩
  · exact c9_skipped_space_policy.2.1 zeroImg ⟨2, 3, 4, 5⟩ (by decide)
  · exact c9_skipped_space_policy.2.2.1 zeroImg 500 ⟨0, 0, 10, 100⟩
      (by decide) [⟨2, 3, 4, 5⟩] []

/-! ## `ParkingManager.detect_vehicles` (parking_manager.py:298-347)

The image-processing pipeline (absdiff → blur → threshold → contours) is an
external capability; its output is the list of valid-contour centroids
appended to `self.matches`.  The counting pass then walks the combined list:
a centroid with `line_y - offset < y < line_y + offset` increments the
counter and is dropped, any other centroid is carried over. -/

/-- The clamp `if line_y >= frame1.shape[0]: line_y = frame1.shape[0] - 50`
applied to `self.line_height`. -/
def detectLineY (frameHeight : Nat) (lineHeight : Int) : Int :=
  if (frameHeight : Int) ≤ lineHeight then (frameHeight : Int) - 50
  else lineHeight

/-- The crossing test of `detect_vehicles`:
`(line_y - self.offset) < y < (line_y + self.offset)` — strict on both
sides. -/
def inCountingBand (lineY offset y : Int) : Bool :=
  lineY - offset < y && y < lineY + offset

/-- One iteration of the crossing loop: count and drop a centroid in the
band, keep it otherwise. -/
def countCrossStep (lineY offset : Int) (acc : List (Int × Int) × Nat)
    (c : Int × Int) : List (Int × Int) × Nat :=
  if inCountingBand lineY offset c.2 then (acc.1, acc.2 + 1)
  else (acc.1 ++ [c], acc.2)

/-- `detect_vehicles`, restricted to its tracked state: takes the previous
`self.matches`, the centroids of this frame's valid contours, and the
current `self.vehicle_counter`; returns the new `self.matches` and
counter. -/
def detect_vehicles (frameHeight : Nat) (lineHeight offset : Int)
    (prevMatches newCentroids : List (Int × Int)) (counter : Nat) :
    List (Int × Int) × Nat :=
  let lineY := detectLineY frameHeight lineHeight
  (prevMatches ++ newCentroids).foldl (countCrossStep lineY offset) ([], counter)

/-- Modelled from the spec: the *closed* counting band
`[lineHeight - offset, lineHeight + offset]` the claim asserts. -/
def specClosedBand (lineHeight offset y : Int) : Bool :=
  lineHeight - offset ≤ y && y ≤ lineHeight + offset

theorem c5_aux_countfold (lineY offset : Int) (l : List (Int × Int)) :
    ∀ (ms : List (Int × Int)) (n : Nat),
      l.foldl (countCrossStep lineY offset) (ms, n)
        = (ms ++ l.filter (fun c => !inCountingBand lineY offset c.2),
           n + l.countP (fun c => inCountingBand lineY offset c.2)) := by
  induction l with
  | nil => intro ms n; simp
  | cons hd tl ih =>
    intro ms n
    rw [List.foldl_cons]
    by_cases h : inCountingBand lineY offset hd.2 = true
    · rw [show countCrossStep lineY offset (ms, n) hd = (ms, n + 1) by
        unfold countCrossStep; rw [h]; simp]
      rw [ih ms (n + 1)]
      simp [List.filter_cons, List.countP_cons, h]
      omega
    · rw [show countCrossStep lineY offset (ms, n) hd = (ms ++ [hd], n) by
        unfold countCrossStep
        rw [Bool.not_eq_true] at h
        rw [h]; simp]
      rw [ih (ms ++ [hd]) n]
      rw [Bool.not_eq_true] at h
      simp [List.filter_cons, List.countP_cons, h]

/-- C5 counterexample: with `line_height = 400`, `offset = 10` and frame
height 720, a tracked centroid at `y = 390` lies inside the claim's closed
band `[390, 410]`, yet `detect_vehicles` does not count it: the code's test
is strict (`390 < y < 410`), so the centroid is carried over uncounted and
the counter stays `0`. -/
theorem c5_counterexample_band_boundary :
    specClosedBand 400 10 390 = true ∧
      detect_vehicles 720 400 10 [] [(5, 390)] 0 = ([(5, 390)], 0) := by
  constructor
  · decide
  · rfl

/-- C5 (amended): in the frame-differencing strategy a tracked centroid is
counted exactly when its y-coordinate lies in the *open* interval
`(line_y - offset, line_y + offset)` around the (clamped) counting line;
every counted centroid is removed from the tracked list in the same pass, so
the same entry is never counted twice, and centroids outside the band are
carried over uncounted in order. -/
theorem c5_open_band_counting (frameHeight : Nat) (lineHeight offset : Int)
    (prevMatches newCentroids : List (Int × Int)) (counter : Nat) :
    detect_vehicles frameHeight lineHeight offset prevMatches newCentroids counter
      = ((prevMatches ++ newCentroids).filter
          (fun c => !(detectLineY frameHeight lineHeight - offset < c.2 &&
            c.2 < detectLineY frameHeight lineHeight + offset)),
        counter + (prevMatches ++ newCentroids).countP
          (fun c => detectLineY frameHeight lineHeight - offset < c.2 &&
            c.2 < detectLineY frameHeight lineHeight + offset)) := by
  unfold detect_vehicles
  rw [c5_aux_countfold]
  rfl

/-! ## Rescaling (parking_manager.py:349-364 and ui/app.py:254-304)

Python's `int(v * scale)` truncates toward zero.  The float division
`new / orig` is modelled as exact rational division; the concrete inputs
used below are dyadic, where binary floating point computes the same
values exactly. -/

/-- Python `int(q)`: truncation toward zero. -/
def pyTrunc (q : ℚ) : Int := if q < 0 then -⌊-q⌋ else ⌊q⌋

/-- `int(v * scale)` for one coordinate. -/
def scaleVal (v : Int) (sc : ℚ) : Int := pyTrunc (v * sc)

theorem scaleVal_eq {v n : Int} {sc : ℚ} (hn : 0 ≤ n)
    (h1 : (n : ℚ) ≤ v * sc) (h2 : (v : ℚ) * sc < n + 1) : scaleVal v sc = n := by
  have h0 : ¬ ((v : ℚ) * sc < 0) := by
    have : (0 : ℚ) ≤ n := by exact_mod_cast hn
    linarith
  unfold scaleVal pyTrunc
  rw [if_neg h0]
  exact Int.floor_eq_iff.mpr ⟨h1, by linarith⟩

/-- `ParkingManager.scale_positions`: scales the *current* `posList` in
place by `new / orig`; the class keeps no reference copy. -/
def scale_positions (posList : List Rect)
    (origWidth origHeight newWidth newHeight : ℚ) : List Rect :=
  let width_scale := newWidth / origWidth
  let height_scale := newHeight / origHeight
  posList.map (fun r =>
    ⟨scaleVal r.x width_scale, scaleVal r.y height_scale,
      scaleVal r.w width_scale, scaleVal r.h height_scale⟩)

/-- An entry of `app.original_posList`: a 4-tuple, a dict with keys
`x, y, w, h`, or an unrecognized record (skipped with a logged warning). -/
inductive PosEntry where
  | tup (r : Rect)
  | dictE (r : Rect)
  | invalid
deriving DecidableEq, Repr

/-- The app state touched by `scale_positions_to_current_dimensions`:
the display-space `posList` and the reference copies `original_posList`
(`[]` models "attribute missing or empty", which the code treats alike). -/
structure AppState where
  posList : List Rect
  originalPosList : List PosEntry
deriving DecidableEq, Repr

/-- Scaling of one `original_posList` entry (tuple and dict branches scale
identically; invalid entries are skipped). -/
def scaleEntry (ws hs : ℚ) : PosEntry → Option Rect
  | .tup r => some ⟨scaleVal r.x ws, scaleVal r.y hs,
      scaleVal r.w ws, scaleVal r.h hs⟩
  | .dictE r => some ⟨scaleVal r.x ws, scaleVal r.y hs,
      scaleVal r.w ws, scaleVal r.h hs⟩
  | .invalid => none

/-- `scale_positions_to_current_dimensions` (ui/app.py): capture
`original_posList` from `posList` if absent/empty, then recompute every
display rectangle from the reference copies with
`scale = image_dim / ref_dim`.  The guards for missing image/reference
dimensions are modelled by passing the dimensions as arguments. -/
def scale_positions_to_current_dimensions (s : AppState)
    (refW refH imgW imgH : ℚ) : AppState :=
  let orig := if s.originalPosList.isEmpty then s.posList.map PosEntry.tup
    else s.originalPosList
  let ws := imgW / refW
  let hs := imgH / refH
  { posList := orig.filterMap (scaleEntry ws hs), originalPosList := orig }

/-- C2 counterexample: `ParkingManager.scale_positions` — one of the two
rescaling routines the repository defines — compounds the scale of
previously-scaled rectangles instead of recomputing from reference copies.
Starting from the reference rectangle `(101, 101, 51, 51)` at 1280×720,
rescaling to 640×360 and then back to 1280×720 yields `(100, 100, 50, 50)`,
while a single rescale to 1280×720 keeps `(101, 101, 51, 51)`: the two-step
result differs from the one-step result. -/
theorem c2_counterexample_scale_positions_compounds :
    scale_positions
        (scale_positions [⟨101, 101, 51, 51⟩] 1280 720 640 360)
        640 360 1280 720
      = [⟨100, 100, 50, 50⟩] ∧
    scale_positions [⟨101, 101, 51, 51⟩] 1280 720 1280 720
      = [⟨101, 101, 51, 51⟩] ∧
    ([⟨100, 100, 50, 50⟩] : List Rect) ≠ [⟨101, 101, 51, 51⟩] := by
  have hstep : scale_positions [⟨101, 101, 51, 51⟩] 1280 720 640 360
      = [⟨50, 50, 25, 25⟩] := by
    simp only [scale_positions, List.map_cons, List.map_nil,
      List.cons.injEq, and_true, Rect.mk.injEq]
    refine ⟨?_, ?_, ?_, ?_⟩ <;> (apply scaleVal_eq <;> norm_num)
  refine ⟨?_, ?_, by decide⟩
  · rw [hstep]
    simp only [scale_positions, List.map_cons, List.map_nil,
      List.cons.injEq, and_true, Rect.mk.injEq]
    refine ⟨?_, ?_, ?_, ?_⟩ <;> (apply scaleVal_eq <;> norm_num)
  · simp only [scale_positions, List.map_cons, List.map_nil,
      List.cons.injEq, and_true, Rect.mk.injEq]
    refine ⟨?_, ?_, ?_, ?_⟩ <;> (apply scaleVal_eq <;> norm_num)

/-- C2 (amended): the app's `scale_positions_to_current_dimensions` always
recomputes the display rectangles from the stored `original_posList`
reference copies, so a `rescale(w1,h1)` followed by a `rescale(w2,h2)`
produces exactly the state of a single `rescale(w2,h2)` on the original
reference rectangles; `ParkingManager.scale_positions`, by contrast, scales
the current list in place and does compound (see the counterexample). -/
theorem c2_rescale_from_reference (s : AppState) (refW refH w1 h1 w2 h2 : ℚ)
    (hne : s.originalPosList ≠ []) :
    scale_positions_to_current_dimensions
        (scale_positions_to_current_dimensions s refW refH w1 h1)
        refW refH w2 h2
      = scale_positions_to_current_dimensions s refW refH w2 h2 := by
  have hE : s.originalPosList.isEmpty = false := by
    cases h : s.originalPosList with
    | nil => exact absurd h hne
    | cons a l => simp [List.isEmpty]
  unfold scale_positions_to_current_dimensions
  rw [hE]
  simp [hE]

/-- C2 witness: the reference-based rescale property at a concrete state
with one stored reference rectangle. -/
theorem c2_rescale_from_reference_witness :
    scale_positions_to_current_dimensions
        (scale_positions_to_current_dimensions
          ⟨[⟨100, 100, 50, 50⟩], [PosEntry.tup ⟨100, 100, 50, 50⟩]⟩
          1280 720 640 360)
        1280 720 320 180
      = scale_positions_to_current_dimensions
          ⟨[⟨100, 100, 50, 50⟩], [PosEntry.tup ⟨100, 100, 50, 50⟩]⟩
          1280 720 320 180 :=
  c2_rescale_from_reference
    ⟨[⟨100, 100, 50, 50⟩], [PosEntry.tup ⟨100, 100, 50, 50⟩]⟩
    1280 720 640 360 320 180 (by decide)

/-! ## `ParkingManager.parking_data` (parking_manager.py:220-283, 549-594)

`parking_data` maps `space_id`/`group_id` strings to records; Python's one
dict of heterogeneous records is modelled as one record type carrying the
union of the fields together with the `is_group` discriminator
(`data.get('is_group', False)`; group records are exactly those created with
`member_spaces`, so `'member_spaces' in data` coincides with `is_group`).
`posList` entries are modelled as rectangles: `process_group_status` and the
second pass of `update_individual_slots_in_groups` unpack them as 4-tuples
unconditionally. -/

/-- A `parking_data` record (space or group). -/
structure PMRecord where
  position : Rect
  occupied : Bool
  vehicle_id : Option String
  last_state_change : ℚ
  distance_to_entrance : Int
  sectionTag : String
  in_group : Bool
  group_id : Option String
  manually_set : Bool
  is_group : Bool
  member_spaces : List Nat
deriving Repr

/-- `parking_data` itself. -/
abbrev PData : Type := List (String × PMRecord)

/-- Section of a space: `"A"/"B"` by `x < width/2`, `"1"/"2"` by
`y < height/2` (Python float halving of the int dimensions, exact). -/
def sectionOf (img : Img) (r : Rect) : String :=
  (if 2 * r.x < (img.width : Int) then "A" else "B") ++
    (if 2 * r.y < (img.height : Int) then "1" else "2")

/-- `space_id = f"S{i + 1}-{section}"`. -/
def spaceId (i : Nat) (sec : String) : String :=
  "S" ++ toString (i + 1) ++ "-" ++ sec

/-- First pass of `update_individual_slots_in_groups`: classify each
in-bounds space; create missing records with `last_state_change = now`;
for existing records not manually set, update **only** the `occupied`
field. -/
def updateSlotStep (img : Img) (threshold : Nat) (now : ℚ) (d : PData)
    (e : Nat × Rect) : PData :=
  let sec := sectionOf img e.2
  let sid := spaceId e.1 sec
  if inFrameStrict img e.2 then
    let isOcc : Bool := threshold ≤ countNonZero img e.2
    match lookupKey sid d with
    | none =>
      setKey sid
        ⟨e.2, isOcc, none, now, e.2.x + e.2.y, sec, false, none,
          false, false, []⟩ d
    | some r =>
      if r.manually_set then d else setKey sid { r with occupied := isOcc } d
  else d

/-- Second pass: flag the member spaces of every group record. -/
def markGroupMembersStep (img : Img) (posList : List Rect) (d : PData)
    (e : String × PMRecord) : PData :=
  if e.2.is_group then
    e.2.member_spaces.foldl (fun d i =>
      match posList.get? i with
      | none => d
      | some pos =>
        let sid := spaceId i (sectionOf img pos)
        match lookupKey sid d with
        | none => d
        | some r =>
          setKey sid { r with in_group := true, group_id := some e.1 } d) d
  else d

/-- `update_individual_slots_in_groups`: first pass over `enumerate(posList)`,
then the group-membership pass over a snapshot of the resulting dict. -/
def update_individual_slots_in_groups (img : Img) (posList : List Rect)
    (threshold : Nat) (now : ℚ) (d : PData) : PData :=
  let d1 := posList.enum.foldl (updateSlotStep img threshold now) d
  d1.foldl (markGroupMembersStep img posList) d1

/-- `occupied_count` of `process_group_status`: members that index an
existing position, lie (strictly) inside the frame, and whose crop count
reaches the threshold. -/
def groupOccCount (img : Img) (posList : List Rect) (threshold : Nat)
    (members : List Nat) : Nat :=
  (members.filter (fun i =>
    match posList.get? i with
    | none => false
    | some pos =>
      inFrameStrict img pos && decide (threshold ≤ countNonZero img pos))).length

/-- One iteration of `process_group_status`: for a group with at least one
member, recompute the majority vote `occupied_count > total_members / 2`
(Python float division) and store it in the group's `occupied` field. -/
def groupStatusStep (img : Img) (posList : List Rect) (threshold : Nat)
    (acc : PData) (e : String × PMRecord) : PData :=
  if e.2.is_group then
    if e.2.member_spaces.length = 0 then acc
    else
      let occ := groupOccCount img posList threshold e.2.member_spaces
      let isOcc : Bool := decide ((e.2.member_spaces.length : ℚ) / 2 < (occ : ℚ))
      setKey e.1 { e.2 with occupied := isOcc } acc
  else acc

/-- `process_group_status` iterates over a snapshot (`list(...items())`) of
`parking_data`, mutating the group records in place. -/
def process_group_status (img : Img) (posList : List Rect) (threshold : Nat)
    (d : PData) : PData :=
  d.foldl (groupStatusStep img posList threshold) d

theorem groupStatusStep_other (img : Img) (posList : List Rect)
    (threshold : Nat) (acc : PData) (e : String × PMRecord) {k : String}
    (hk : k ≠ e.1) :
    lookupKey k (groupStatusStep img posList threshold acc e)
      = lookupKey k acc := by
  unfold groupStatusStep
  split
  · split
    · rfl
    · exact lookupKey_setKey_other hk _ acc
  · rfl

theorem groupStatus_foldl_untouched (img : Img) (posList : List Rect)
    (threshold : Nat) (l : List (String × PMRecord)) :
    ∀ (acc : PData) (k : String), k ∉ l.map Prod.fst →
      lookupKey k (l.foldl (groupStatusStep img posList threshold) acc)
        = lookupKey k acc := by
  induction l with
  | nil => intro acc k _; rfl
  | cons hd tl ih =>
    intro acc k hk
    rw [List.map_cons, List.mem_cons] at hk
    push_neg at hk
    rw [List.foldl_cons, ih _ k hk.2,
      groupStatusStep_other img posList threshold acc hd hk.1]

theorem groupStatusStep_self (img : Img) (posList : List Rect)
    (threshold : Nat) (acc : PData) (e : String × PMRecord)
    (hg : e.2.is_group = true) (hm : e.2.member_spaces ≠ []) :
    lookupKey e.1 (groupStatusStep img posList threshold acc e)
      = some { e.2 with
          occupied := decide ((e.2.member_spaces.length : ℚ) / 2
                        < (groupOccCount img posList threshold e.2.member_spaces : ℚ)) } := by
  unfold groupStatusStep
  rw [hg]
  simp only [if_true]
  rw [if_neg (by simpa [List.length_eq_zero] using hm)]
  exact lookupKey_setKey_self _ _ acc

theorem c7_aux (img : Img) (posList : List Rect) (threshold : Nat)
    (l : List (String × PMRecord)) :
    ∀ (acc : PData) (gid : String) (rec : PMRecord),
      (gid, rec) ∈ l → (l.map Prod.fst).Nodup →
      rec.is_group = true → rec.member_spaces ≠ [] →
      lookupKey gid (l.foldl (groupStatusStep img posList threshold) acc)
        = some { rec with
            occupied := decide ((rec.member_spaces.length : ℚ) / 2
                          < (groupOccCount img posList threshold rec.member_spaces : ℚ)) } := by
  induction l with
  | nil => intro _ _ _ h; exact absurd h (List.not_mem_nil _)
  | cons hd tl ih =>
    intro acc gid rec hmem hnd hg hm
    rw [List.map_cons, List.nodup_cons] at hnd
    rw [List.mem_cons] at hmem
    rcases hmem with heq | hmem
    · subst heq
      rw [List.foldl_cons,
        groupStatus_foldl_untouched img posList threshold tl _ gid hnd.1,
        groupStatusStep_self img posList threshold acc (gid, rec) hg hm]
    · have : gid ∈ tl.map Prod.fst :=
        List.mem_map.mpr ⟨(gid, rec), hmem, rfl⟩
      rw [List.foldl_cons]
      exact ih _ gid rec hmem hnd.2 hg hm

/-- C7 (confirmed): for every group record with `n ≥ 1` member spaces of
which `k` are classified occupied (member indexes an existing position,
lies inside the frame, crop count reaches the threshold),
`process_group_status` sets the group's `occupied` flag to true iff
`k > n / 2` — equivalently `n < 2 * k`, so an exact tie is *free*. -/
theorem c7_group_majority_vote (img : Img) (posList : List Rect)
    (threshold : Nat) (d : PData) (gid : String) (rec : PMRecord)
    (hmem : (gid, rec) ∈ d) (hnd : (d.map Prod.fst).Nodup)
    (hg : rec.is_group = true) (hm : rec.member_spaces ≠ []) :
    lookupKey gid (process_group_status img posList threshold d)
      = some { rec with
          occupied := decide (rec.member_spaces.length
                        < 2 * groupOccCount img posList threshold rec.member_spaces) } := by
  unfold process_group_status
  rw [c7_aux img posList threshold d d gid rec hmem hnd hg hm]
  congr 1
  have : ((rec.member_spaces.length : ℚ) / 2
      < (groupOccCount img posList threshold rec.member_spaces : ℚ))
      ↔ rec.member_spaces.length
          < 2 * groupOccCount img posList threshold rec.member_spaces := by
    rw [div_lt_iff₀ (by norm_num : (0 : ℚ) < 2)]
    constructor
    · intro h
      have := (by exact_mod_cast h :
        rec.member_spaces.length
          < groupOccCount img posList threshold rec.member_spaces * 2)
      omega
    · intro h
      exact_mod_cast (by omega :
        rec.member_spaces.length
          < groupOccCount img posList threshold rec.member_spaces * 2)
  simp [this]

/-- A 10×10 frame whose left half (columns 0–4) is nonzero: spaces drawn on
the left are "occupied", spaces on the right are "free". -/
def stripeImg : Img := ⟨10, 10, fun _ c => if c < 5 then 1 else 0⟩

/-- Four concrete spaces: indices 0,1 on the nonzero half (occupied),
indices 2,3 on the zero half (free). -/
def posListW : List Rect := [⟨0, 0, 2, 2⟩, ⟨0, 3, 2, 2⟩, ⟨6, 0, 2, 2⟩, ⟨6, 3, 2, 2⟩]

/-- A concrete group record over the given member indices. -/
def mkGroup (members : List Nat) : PMRecord :=
  ⟨⟨0, 0, 1, 1⟩, false, none, 0, 0, "G", false, none, false, true, members⟩

/-- Three concrete groups: members `[free, free, occupied]`,
`[occupied, occupied, free]`, and a 2-of-4 tie. -/
def groupsW : PData :=
  [("Group_1", mkGroup [2, 3, 0]), ("Group_2", mkGroup [0, 1, 2]),
    ("Group_3", mkGroup [0, 1, 2, 3])]

/-- C7 witness: majority vote on the concrete groups — `[free, free,
occupied]` leaves the group free, `[occupied, occupied, free]` marks it
occupied, and an exact 2-of-4 tie leaves it free. -/
theorem c7_group_majority_vote_witness :
    (lookupKey "Group_1" (process_group_status stripeImg posListW 1 groupsW)).map
        PMRecord.occupied = some false ∧
    (lookupKey "Group_2" (process_group_status stripeImg posListW 1 groupsW)).map
        PMRecord.occupied = some true ∧
    (lookupKey "Group_3" (process_group_status stripeImg posListW 1 groupsW)).map
        PMRecord.occupied = some false := by
  refine ⟨?_, ?_, ?_⟩
  · rw [c7_group_majority_vote stripeImg posListW 1 groupsW "Group_1"
      (mkGroup [2, 3, 0]) (List.mem_cons_self _ _) (by decide) rfl
      (by decide)]
    decide
  · rw [c7_group_majority_vote stripeImg posListW 1 groupsW "Group_2"
      (mkGroup [0, 1, 2])
      (List.mem_cons_of_mem _ (List.mem_cons_self _ _)) (by decide) rfl
      (by decide)]
    decide
  · rw [c7_group_majority_vote stripeImg posListW 1 groupsW "Group_3"
      (mkGroup [0, 1, 2, 3])
      (List.mem_cons_of_mem _ (List.mem_cons_of_mem _ (List.mem_cons_self _ _)))
      (by decide) rfl (by decide)]
    decide

/-! ## `ParkingVisualizer.update_parking_status` (parking_visualizer.py:145-168)

The visualizer keeps its own `parking_data` records; `update_parking_status`
zips `space_ids` with `statuses` and, for known ids, refreshes
`last_state_change` exactly when `occupied` flips. -/

/-- A visualizer `parking_data` record (fields touched by
`update_parking_status`). -/
structure VRecord where
  occupied : Bool
  vehicle_id : Option String
  last_state_change : ℚ
  occupation_history : List (ℚ × Bool × ℚ)
deriving Repr

/-- Visualizer `parking_data`. -/
abbrev VData : Type := List (String × VRecord)

/-- One `(space_id, is_occupied)` update: on a status flip set
`last_state_change := now` and append a history entry (whose `duration` is
computed *after* the timestamp was overwritten, hence always `0`); then
store the status, and clear `vehicle_id` when the space became free. -/
def updateStatusStep (now : ℚ) (d : VData) (e : String × Bool) : VData :=
  match lookupKey e.1 d with
  | none => d
  | some r =>
    let r1 := if r.occupied ≠ e.2 then
        { r with
          last_state_change := now,
          occupation_history := r.occupation_history ++ [(now, e.2, now - now)] }
      else r
    let r2 := { r1 with occupied := e.2 }
    let r3 := if e.2 = false then { r2 with vehicle_id := none } else r2
    setKey e.1 r3 d

/-- `update_parking_status(space_ids, statuses)`. -/
def update_parking_status (d : VData) (space_ids : List String)
    (statuses : List Bool) (now : ℚ) : VData :=
  (space_ids.zip statuses).foldl (updateStatusStep now) d

theorem updateStatusStep_other (now : ℚ) (d : VData) (e : String × Bool)
    {k : String} (hk : k ≠ e.1) :
    lookupKey k (updateStatusStep now d e) = lookupKey k d := by
  unfold updateStatusStep
  cases lookupKey e.1 d with
  | none => rfl
  | some r => exact lookupKey_setKey_other hk _ d

theorem updateStatus_foldl_untouched (now : ℚ)
    (l : List (String × Bool)) :
    ∀ (d : VData) (k : String), k ∉ l.map Prod.fst →
      lookupKey k (l.foldl (updateStatusStep now) d) = lookupKey k d := by
  induction l with
  | nil => intro d k _; rfl
  | cons hd tl ih =>
    intro d k hk
    rw [List.map_cons, List.mem_cons] at hk
    push_neg at hk
    rw [List.foldl_cons, ih _ k hk.2, updateStatusStep_other now d hd hk.1]

/-- The record stored by one `update_parking_status` iteration for a known
space id with previous record `r` and reported status `st`. -/
def statusWritten (r : VRecord) (st : Bool) (now : ℚ) : VRecord :=
  let r1 := if r.occupied ≠ st then
      { r with
        last_state_change := now,
        occupation_history := r.occupation_history ++ [(now, st, now - now)] }
    else r
  let r2 := { r1 with occupied := st }
  if st = false then { r2 with vehicle_id := none } else r2

theorem updateStatusStep_self (now : ℚ) (d : VData) (id : String) (st : Bool)
    (r : VRecord) (hr : lookupKey id d = some r) :
    lookupKey id (updateStatusStep now d (id, st))
      = some (statusWritten r st now) := by
  have : updateStatusStep now d (id, st) = setKey id (statusWritten r st now) d := by
    simp only [updateStatusStep, statusWritten, hr]
  rw [this]
  exact lookupKey_setKey_self _ _ d

theorem statusWritten_occupied (r : VRecord) (st : Bool) (now : ℚ) :
    (statusWritten r st now).occupied = st := by
  unfold statusWritten
  by_cases hf : r.occupied ≠ st <;> cases st <;> simp [hf]

theorem statusWritten_lsc (r : VRecord) (st : Bool) (now : ℚ) :
    (statusWritten r st now).last_state_change
      = (if r.occupied ≠ st then now else r.last_state_change) := by
  unfold statusWritten
  by_cases hf : r.occupied ≠ st <;> cases st <;> simp [hf]

theorem c3_aux_visualizer (now : ℚ) (l : List (String × Bool)) :
    ∀ (d : VData) (id : String) (st : Bool) (r₀ : VRecord),
      (id, st) ∈ l → (l.map Prod.fst).Nodup → lookupKey id d = some r₀ →
      ∃ r, lookupKey id (l.foldl (updateStatusStep now) d) = some r ∧
        r.occupied = st ∧
        r.last_state_change
          = (if r₀.occupied ≠ st then now else r₀.last_state_change) := by
  induction l with
  | nil => intro _ _ _ _ h; exact absurd h (List.not_mem_nil _)
  | cons hd tl ih =>
    intro d id st r₀ hmem hnd hr₀
    rw [List.map_cons, List.nodup_cons] at hnd
    rw [List.mem_cons] at hmem
    rcases hmem with heq | hmem
    · subst heq
      rw [List.foldl_cons, updateStatus_foldl_untouched now tl _ id hnd.1,
        updateStatusStep_self now d id st r₀ hr₀]
      exact ⟨statusWritten r₀ st now, rfl, statusWritten_occupied r₀ st now,
        statusWritten_lsc r₀ st now⟩
    · have hne : id ≠ hd.1 := by
        intro h
        exact hnd.1 (h ▸ List.mem_map.mpr ⟨(id, st), hmem, rfl⟩)
      rw [List.foldl_cons]
      exact ih _ id st r₀ hmem hnd.2
        (by rw [updateStatusStep_other now d hd hne]; exact hr₀)

theorem lookupKey_mem {α : Type} [DecidableEq α] {β : Type}
    {k : α} {v : β} : ∀ {l : List (α × β)}, lookupKey k l = some v →
      (k, v) ∈ l := by
  intro l
  induction l with
  | nil => intro h; exact absurd h (by simp [lookupKey])
  | cons hd tl ih =>
    intro h
    obtain ⟨k', v'⟩ := hd
    by_cases hk : k' = k
    · rw [lookupKey, if_pos hk] at h
      cases h
      subst hk
      exact List.mem_cons_self _ _
    · rw [lookupKey, if_neg hk] at h
      exact List.mem_cons_of_mem _ (ih h)

/-- "Afterwards, every record present before is still present and its
`last_state_change` is unchanged." -/
def PreservesLsc (d₀ d : PData) : Prop :=
  ∀ id r₀, lookupKey id d₀ = some r₀ →
    ∃ r, lookupKey id d = some r ∧
      r.last_state_change = r₀.last_state_change

theorem preservesLsc_refl (d : PData) : PreservesLsc d d :=
  fun _ r₀ h => ⟨r₀, h, rfl⟩

theorem preservesLsc_trans {a b c : PData} (h1 : PreservesLsc a b)
    (h2 : PreservesLsc b c) : PreservesLsc a c := by
  intro id r₀ hr
  obtain ⟨r1, hr1, he1⟩ := h1 id r₀ hr
  obtain ⟨r2, hr2, he2⟩ := h2 id r1 hr1
  exact ⟨r2, hr2, he2.trans he1⟩

theorem preservesLsc_foldl {σ : Type} (step : PData → σ → PData)
    (hstep : ∀ d x, PreservesLsc d (step d x)) (l : List σ) :
    ∀ d : PData, PreservesLsc d (l.foldl step d) := by
  induction l with
  | nil => intro d; exact preservesLsc_refl d
  | cons hd tl ih =>
    intro d
    rw [List.foldl_cons]
    exact preservesLsc_trans (hstep d hd) (ih (step d hd))

theorem preservesLsc_setKey_update (d : PData) (sid : String)
    {r r' : PMRecord} (hr : lookupKey sid d = some r)
    (hlsc : r'.last_state_change = r.last_state_change) :
    PreservesLsc d (setKey sid r' d) := by
  intro id r₀ h₀
  by_cases hid : id = sid
  · subst hid
    rw [h₀] at hr
    cases hr
    exact ⟨r', lookupKey_setKey_self _ _ d, hlsc⟩
  · exact ⟨r₀, by rw [lookupKey_setKey_other hid _ d]; exact h₀, rfl⟩

theorem updateSlotStep_preservesLsc (img : Img) (threshold : Nat) (now : ℚ)
    (d : PData) (e : Nat × Rect) :
    PreservesLsc d (updateSlotStep img threshold now d e) := by
  by_cases hb : inFrameStrict img e.2 = true
  · cases hl : lookupKey (spaceId e.1 (sectionOf img e.2)) d with
    | none =>
      have heq : updateSlotStep img threshold now d e
          = setKey (spaceId e.1 (sectionOf img e.2))
              ⟨e.2, decide (threshold ≤ countNonZero img e.2), none, now,
                e.2.x + e.2.y, sectionOf img e.2, false, none, false, false,
                []⟩ d := by
        simp [updateSlotStep, hb, hl]
      rw [heq]
      intro id r₀ h₀
      refine ⟨r₀, ?_, rfl⟩
      rw [lookupKey_setKey_other ?_ _ d]
      · exact h₀
      · intro h
        rw [h, hl] at h₀
        exact Option.noConfusion h₀
    | some r =>
      by_cases hman : r.manually_set = true
      · have heq : updateSlotStep img threshold now d e = d := by
          simp [updateSlotStep, hb, hl, hman]
        rw [heq]
        exact preservesLsc_refl d
      · have heq : updateSlotStep img threshold now d e
            = setKey (spaceId e.1 (sectionOf img e.2))
                { r with occupied := decide (threshold ≤ countNonZero img e.2) }
                d := by
          simp [updateSlotStep, hb, hl, hman]
        rw [heq]
        exact preservesLsc_setKey_update d _ hl rfl
  · have heq : updateSlotStep img threshold now d e = d := by
      simp [updateSlotStep, hb]
    rw [heq]
    exact preservesLsc_refl d

theorem markGroupMembersStep_preservesLsc (img : Img) (posList : List Rect)
    (d : PData) (e : String × PMRecord) :
    PreservesLsc d (markGroupMembersStep img posList d e) := by
  unfold markGroupMembersStep
  by_cases hg : e.2.is_group = true
  · rw [if_pos hg]
    apply preservesLsc_foldl
    intro d' i
    cases hp : posList.get? i with
    | none => simp only [hp]; exact preservesLsc_refl d'
    | some pos =>
      simp only [hp]
      cases hl : lookupKey (spaceId i (sectionOf img pos)) d' with
      | none => simp only [hl]; exact preservesLsc_refl d'
      | some r =>
        simp only [hl]
        exact preservesLsc_setKey_update d' _ hl rfl
  · rw [if_neg hg]
    exact preservesLsc_refl d

/-- `update_individual_slots_in_groups` never touches the
`last_state_change` of a record that already exists. -/
theorem update_individual_slots_preservesLsc (img : Img)
    (posList : List Rect) (threshold : Nat) (now : ℚ) (d : PData) :
    PreservesLsc d (update_individual_slots_in_groups img posList threshold now d) := by
  show PreservesLsc d
    (List.foldl (markGroupMembersStep img posList)
      (List.foldl (updateSlotStep img threshold now) d posList.enum)
      (List.foldl (updateSlotStep img threshold now) d posList.enum))
  exact preservesLsc_trans
    (preservesLsc_foldl _ (updateSlotStep_preservesLsc img threshold now)
      posList.enum d)
    (preservesLsc_foldl _ (markGroupMembersStep_preservesLsc img posList) _ _)

theorem lookupKey_of_mem_nodup {α : Type} [DecidableEq α] {β : Type}
    {l : List (α × β)} (hnd : (l.map Prod.fst).Nodup) {k : α} {v : β}
    (hmem : (k, v) ∈ l) : lookupKey k l = some v := by
  induction l with
  | nil => exact absurd hmem (List.not_mem_nil _)
  | cons hd tl ih =>
    obtain ⟨k', v'⟩ := hd
    rw [List.map_cons, List.nodup_cons] at hnd
    rcases List.mem_cons.mp hmem with heq | hin
    · cases heq
      rw [lookupKey, if_pos rfl]
    · have hne : k' ≠ k := by
        intro h
        exact hnd.1 (h ▸ List.mem_map.mpr ⟨(k, v), hin, rfl⟩)
      rw [lookupKey, if_neg hne]
      exact ih hnd.2 hin

theorem groupStatus_foldl_no_write (img : Img) (posList : List Rect)
    (threshold : Nat) (l : List (String × PMRecord)) :
    ∀ (acc : PData) (id : String),
      (∀ e ∈ l, e.1 = id →
        (e.2.is_group = false ∨ e.2.member_spaces = [])) →
      lookupKey id (l.foldl (groupStatusStep img posList threshold) acc)
        = lookupKey id acc := by
  induction l with
  | nil => intro acc id _; rfl
  | cons hd tl ih =>
    intro acc id hno
    rw [List.foldl_cons, ih _ id (fun e he => hno e (List.mem_cons_of_mem _ he))]
    by_cases hk : id = hd.1
    · rcases hno hd (List.mem_cons_self _ _) hk.symm with hg | hm
      · unfold groupStatusStep
        rw [hg]
        simp
      · unfold groupStatusStep
        by_cases hgg : hd.2.is_group = true <;> simp [hgg, hm]
    · exact groupStatusStep_other img posList threshold acc hd hk

/-- `process_group_status` never touches the `last_state_change` of any
record (groups get a fresh `occupied` flag, everything else is untouched),
provided the dict keys are unique. -/
theorem process_group_status_preservesLsc (img : Img) (posList : List Rect)
    (threshold : Nat) (d : PData) (hnd : (d.map Prod.fst).Nodup) :
    PreservesLsc d (process_group_status img posList threshold d) := by
  intro id r₀ h₀
  by_cases hgr : r₀.is_group = true ∧ r₀.member_spaces ≠ []
  · refine ⟨_, c7_aux img posList threshold d d id r₀ (lookupKey_mem h₀)
      hnd hgr.1 hgr.2, rfl⟩
  · refine ⟨r₀, ?_, rfl⟩
    unfold process_group_status
    rw [groupStatus_foldl_no_write img posList threshold d d id ?_]
    · exact h₀
    · intro e he hk
      have he' : (id, e.2) ∈ d := by
        rw [← hk]
        exact Prod.mk.eta.symm ▸ he
      have h1 : lookupKey id d = some e.2 := lookupKey_of_mem_nodup hnd he'
      rw [h₀] at h1
      cases h1
      rcases not_and_or.mp hgr with h | h
      · exact Or.inl (by simpa using h)
      · exact Or.inr (by simpa using h)

/-- A concrete manager record for space `"S1-A1"`: currently free, last
state change at time 5, not manually set. -/
def c3rec : PMRecord :=
  ⟨⟨1, 1, 2, 2⟩, false, none, 5, 2, "A1", false, none, false, false, []⟩

/-- A concrete manager `parking_data` with the single record above. -/
def c3data : PData := [("S1-A1", c3rec)]

/-- C3 counterexample: in `update_individual_slots_in_groups` — the
occupancy classifier's per-pass updater of `parking_data` — a space whose
`occupied` value flips is *not* timestamped.  Concretely, space `"S1-A1"`
is free with `last_state_change = 5`; a detection pass at time 99 over
`stripeImg` classifies its rectangle occupied (4 nonzero pixels ≥
threshold 1), so `occupied` flips to `true`, yet `last_state_change`
remains 5 ≠ 99. -/
theorem c3_counterexample_flip_without_timestamp :
    (lookupKey "S1-A1" c3data).map
        (fun r => (r.occupied, r.last_state_change)) = some (false, 5) ∧
    (lookupKey "S1-A1"
          (update_individual_slots_in_groups stripeImg [⟨1, 1, 2, 2⟩] 1 99
            c3data)).map
        (fun r => (r.occupied, r.last_state_change)) = some (true, 5) ∧
    (5 : ℚ) ≠ 99 := by
  refine ⟨rfl, rfl, by norm_num⟩

/-- C3 (amended): the flip-driven `last_state_change` discipline is
implemented by `ParkingVisualizer.update_parking_status` — for every
reported `(space_id, status)` pair of a known record it sets
`last_state_change := now` exactly when `occupied` flips, leaves it
unchanged otherwise, and leaves unreported records untouched — whereas the
manager-side per-pass updaters never refresh `last_state_change` of an
existing record at all, even when its `occupied` value flips
(`update_individual_slots_in_groups` rewrites only `occupied`;
`process_group_status` rewrites only the group's `occupied`). -/
theorem c3_last_state_change_policy :
    (∀ (d : VData) (space_ids : List String) (statuses : List Bool)
      (now : ℚ) (id : String) (st : Bool) (r₀ : VRecord),
      (id, st) ∈ space_ids.zip statuses →
      ((space_ids.zip statuses).map Prod.fst).Nodup →
      lookupKey id d = some r₀ →
      ∃ r, lookupKey id (update_parking_status d space_ids statuses now)
          = some r ∧
        r.occupied = st ∧
        r.last_state_change
          = (if r₀.occupied ≠ st then now else r₀.last_state_change)) ∧
    (∀ (d : VData) (space_ids : List String) (statuses : List Bool)
      (now : ℚ) (id : String),
      id ∉ (space_ids.zip statuses).map Prod.fst →
      lookupKey id (update_parking_status d space_ids statuses now)
        = lookupKey id d) ∧
    (∀ (img : Img) (posList : List Rect) (threshold : Nat) (now : ℚ)
      (d : PData) (id : String) (r₀ : PMRecord),
      lookupKey id d = some r₀ →
      ∃ r, lookupKey id
          (update_individual_slots_in_groups img posList threshold now d)
          = some r ∧
        r.last_state_change = r₀.last_state_change) ∧
    (∀ (img : Img) (posList : List Rect) (threshold : Nat) (d : PData),
      (d.map Prod.fst).Nodup →
      ∀ (id : String) (r₀ : PMRecord), lookupKey id d = some r₀ →
      ∃ r, lookupKey id (process_group_status img posList threshold d)
          = some r ∧
        r.last_state_change = r₀.last_state_change) := by
  refine ⟨?_, ?_, ?_, ?_⟩
  · intro d space_ids statuses now id st r₀ hmem hnd hr₀
    exact c3_aux_visualizer now (space_ids.zip statuses) d id st r₀ hmem hnd hr₀
  · intro d space_ids statuses now id hid
    exact updateStatus_foldl_untouched now (space_ids.zip statuses) d id hid
  · intro img posList threshold now d id r₀ h₀
    exact update_individual_slots_preservesLsc img posList threshold now d id r₀ h₀
  · intro img posList threshold d hnd id r₀ h₀
    exact process_group_status_preservesLsc img posList threshold d hnd id r₀ h₀

/-- A concrete visualizer record: free, last state change at time 5. -/
def c3vrec : VRecord := ⟨false, none, 5, []⟩

/-- A concrete visualizer `parking_data`. -/
def c3vdata : VData := [("S1", c3vrec)]

/-- C3 witness: on the concrete visualizer data, reporting `occupied`
(a flip) stamps `last_state_change` with the current time 99, while
reporting `free` again (no flip) leaves the old timestamp 5. -/
theorem c3_last_state_change_policy_witness :
    (lookupKey "S1" (update_parking_status c3vdata ["S1"] [true] 99)).map
        (fun r => (r.occupied, r.last_state_change)) = some (true, 99) ∧
    (lookupKey "S1" (update_parking_status c3vdata ["S1"] [false] 99)).map
        (fun r => (r.occupied, r.last_state_change)) = some (false, 5) := by
  constructor
  · obtain ⟨r, hr, hocc, hlsc⟩ :=
      c3_last_state_change_policy.1 c3vdata ["S1"] [true] 99 "S1" true c3vrec
        (by decide) (by decide) rfl
    rw [hr]
    show some (r.occupied, r.last_state_change) = some (true, 99)
    rw [hocc, hlsc]
    simp [c3vrec]
  · obtain ⟨r, hr, hocc, hlsc⟩ :=
      c3_last_state_change_policy.1 c3vdata ["S1"] [false] 99 "S1" false c3vrec
        (by decide) (by decide) rfl
    rw [hr]
    show some (r.occupied, r.last_state_change) = some (false, 5)
    rw [hocc, hlsc]
    simp [c3vrec]

/-! ## `ParkingAllocationEngine` (allocation_engine.py)

The XGBoost model is a pluggable external capability: its batched
`predict_proba(...)[:, 1]` call is modelled as a function from the feature
rows to either the class-1 probability list or a raised exception.
`self.load_balancing_weight` (default 0.3) and `self.parking_stats` are
engine state and are passed explicitly. -/

/-- A raised Python exception. -/
inductive PyErr where
  | exc (msg : String)
deriving DecidableEq, Repr

/-- The per-space data the engine reads from `spaces_data` values. -/
structure SpaceData where
  occupied : Bool
  last_state_change : ℚ
  distance_to_entrance : ℚ
deriving Repr

/-- `spaces_data`. -/
abbrev SpacesData : Type := List (String × SpaceData)

/-- Split a character list at every occurrence of `c`
(Python `str.split`, always returning at least one part). -/
def splitOnChar (c : Char) : List Char → List (List Char)
  | [] => [[]]
  | a :: rest =>
    if a = c then [] :: splitOnChar c rest
    else
      match splitOnChar c rest with
      | [] => [[a]]
      | p :: ps => (a :: p) :: ps

/-- `get_section_from_space_id`: `parts[1]` of `space_id.split('-')` when
the id contains a hyphen, defaulting to `"A"`.  (`String.splitOn` itself is
well-founded recursion and does not reduce in the kernel, so the split is
implemented over the character list.) -/
def get_section_from_space_id (space_id : String) : String :=
  match splitOnChar '-' space_id.toList with
  | _ :: p :: _ => String.mk p
  | _ => "A"

/-- One step of the section-grouping loop of `update_parking_stats`:
ensure the section exists, bump `total`, bump `occupied` if occupied. -/
def bumpSection (m : List (String × (Nat × Nat))) (sec : String)
    (occ : Bool) : List (String × (Nat × Nat)) :=
  match lookupKey sec m with
  | none => setKey sec (1, if occ then 1 else 0) m
  | some t => setKey sec (t.1 + 1, if occ then t.2 + 1 else t.2) m

/-- The fresh `sections` dict of `update_parking_stats`. -/
def buildSections (spacesData : SpacesData) : List (String × (Nat × Nat)) :=
  spacesData.foldl
    (fun m e => bumpSection m (get_section_from_space_id e.1) e.2.occupied) []

/-- A `self.parking_stats` entry. -/
structure SectionStats where
  total : Nat
  occupied : Nat
  occupancy_rate : ℚ
deriving Repr

/-- `update_parking_stats`: recompute each present section's entry and merge
it into the persistent `parking_stats` dict (sections absent from
`spaces_data` keep their old entry). -/
def update_parking_stats (stats : List (String × SectionStats))
    (spacesData : SpacesData) : List (String × SectionStats) :=
  (buildSections spacesData).foldl
    (fun ps e =>
      setKey e.1
        ⟨e.2.1, e.2.2, if 0 < e.2.1 then (e.2.2 : ℚ) / (e.2.1 : ℚ) else 0⟩ ps)
    stats

/-- The feature row built for one available space:
`[distance_to_entrance, time_since_last_occupied (minutes), vehicle_size]`. -/
def featRow (now vehicle_size : ℚ) (e : String × SpaceData) : List ℚ :=
  [e.2.distance_to_entrance, (now - e.2.last_state_change) / 60, vehicle_size]

/-- The section-preference multiplier: `1.2` when a preferred section is
supplied and matches, else `1.0`. -/
def prefMult (preferred_section : Option String) (sec : String) : ℚ :=
  match preferred_section with
  | some p => if sec = p then 12 / 10 else 1
  | none => 1

/-- `np.argmax`: index of the first occurrence of the maximum (0 on an
empty list). -/
def argmaxIdx : List ℚ → Nat
  | [] => 0
  | x :: xs => if xs.all (fun v => v ≤ x) then 0 else argmaxIdx xs + 1

/-- The score-blending loop of `allocate_parking` (lines 191-213): for each
`(space_id, model_score)` pair, look up the section's occupancy rate in the
just-updated stats (`0.5` when the section is unknown), form the
load-balance term `1 - rate`, and blend
`((1 - w)·score + w·loadBalance) · preferenceMultiplier`. -/
def balancedScores (stats1 : List (String × SectionStats)) (w : ℚ)
    (preferred_section : Option String) (pairs : List (String × ℚ)) :
    List ℚ :=
  pairs.map (fun e =>
    let sec := get_section_from_space_id e.1
    let section_occupancy := match lookupKey sec stats1 with
      | some st => st.occupancy_rate
      | none => 1 / 2
    let load_balance_score := 1 - section_occupancy
    ((1 - w) * e.2 + w * load_balance_score)
      * prefMult preferred_section sec)

/-- `allocate_parking`: update the section stats, filter the free spaces,
build the feature rows, run the (lock-guarded) batched prediction — note
there is **no** `try/except` around it — then blend each score with the
load-balancing term and the preference multiplier and return the first
argmax.  The append to `allocation_history` (a pure log) is not part of the
returned value; the history is modelled explicitly for `add_feedback`. -/
def allocate_parking (stats : List (String × SectionStats)) (w : ℚ)
    (predict : List (List ℚ) → Except PyErr (List ℚ)) (now : ℚ)
    (spacesData : SpacesData) (vehicle_size : ℚ)
    (preferred_section : Option String) : Except PyErr (Option String × ℚ) :=
  let available := spacesData.filter (fun e => !e.2.occupied)
  if available.isEmpty then .ok (none, 0)
  else
    let features_list := available.map (featRow now vehicle_size)
    let space_ids := available.map Prod.fst
    match predict features_list with
    | .error err => .error err
    | .ok prediction_scores =>
      let balanced_scores :=
        balancedScores (update_parking_stats stats spacesData) w
          preferred_section (space_ids.zip prediction_scores)
      if balanced_scores.isEmpty then .ok (none, 0)
      else
        let best_idx := argmaxIdx balanced_scores
        .ok (some (space_ids.getD best_idx ""),
          balanced_scores.getD best_idx 0)

/-- Modelled from the spec ("Compute each candidate's section occupancy
rate (recomputed from the full occupancy map, not cached)"): the fraction
of spaces of the section that are occupied, computed directly from
`spaces_data`. -/
def sectionOccupancyRate (spacesData : SpacesData) (sec : String) : ℚ :=
  let inSec := spacesData.filter
    (fun e => get_section_from_space_id e.1 = sec)
  ((inSec.filter (fun e => e.2.occupied)).length : ℚ) / (inSec.length : ℚ)

/-- Modelled from the spec ("finalScore = ((1−w)·modelScore +
w·loadBalanceScore) · sectionPreferenceMultiplier"): the claimed final
score of each available space, written directly from the spec's formula
over the recomputed occupancy rates. -/
def specFinalScores (spacesData : SpacesData) (w : ℚ) (scores : List ℚ)
    (preferred_section : Option String) : List ℚ :=
  (((spacesData.filter (fun e => !e.2.occupied)).map Prod.fst).zip scores).map
    (fun e =>
      ((1 - w) * e.2
        + w * (1 - sectionOccupancyRate spacesData
            (get_section_from_space_id e.1)))
        * prefMult preferred_section (get_section_from_space_id e.1))

/-- A concrete `spaces_data` with one free space. -/
def sdOne : SpacesData := [("S1-A1", ⟨false, 0, 10⟩)]

/-- C4 counterexample: with a free space available and a model whose
`predict_proba` raises, `allocate_parking` does **not** return `(None, 0)`
— the exception propagates to the caller, because `allocate_parking` has no
`try/except` around the inference call. -/
theorem c4_counterexample_inference_error_escapes :
    allocate_parking [] (3 / 10) (fun _ => .error (.exc "model failure")) 0
        sdOne 1 none
      = .error (.exc "model failure") ∧
    (Except.error (.exc "model failure")
      ≠ (.ok (none, 0) : Except PyErr (Option String × ℚ))) := by
  exact ⟨rfl, fun h => Except.noConfusion h⟩

/-- C4 (amended): an inference exception raised by the model inside
`allocate_parking` is not caught there: whenever at least one space is free
(so the prediction call is reached) and `predict` raises `e`, `allocate`
propagates exactly `e` to its caller instead of returning `(None, 0)`.
(Only training exceptions inside `_retrain_model`'s `try` block are caught;
`allocate` has no handler.) -/
theorem c4_inference_error_propagates
    (stats : List (String × SectionStats)) (w : ℚ)
    (predict : List (List ℚ) → Except PyErr (List ℚ)) (now : ℚ)
    (sd : SpacesData) (vehicle_size : ℚ) (preferred_section : Option String)
    (e : PyErr)
    (hav : (sd.filter (fun e => !e.2.occupied)).isEmpty = false)
    (hpred : predict ((sd.filter (fun e => !e.2.occupied)).map
        (featRow now vehicle_size)) = .error e) :
    allocate_parking stats w predict now sd vehicle_size preferred_section
      = .error e := by
  simp only [allocate_parking, hav, Bool.false_eq_true, if_false, hpred]

/-- C4 witness: the propagation theorem at the concrete one-space data and
an always-raising model. -/
theorem c4_inference_error_propagates_witness :
    allocate_parking [] (3 / 10) (fun _ => .error (.exc "boom")) 7 sdOne 2 none
      = .error (.exc "boom") :=
  c4_inference_error_propagates [] (3 / 10) (fun _ => .error (.exc "boom")) 7
    sdOne 2 none (.exc "boom") rfl rfl

/-! ### `np.argmax` first-occurrence lemmas -/

theorem argmaxIdx_lt_length : ∀ l : List ℚ, l ≠ [] → argmaxIdx l < l.length := by
  intro l
  induction l with
  | nil => intro h; exact absurd rfl h
  | cons x xs ih =>
    intro _
    unfold argmaxIdx
    by_cases h : xs.all (fun v => v ≤ x) = true
    · rw [if_pos h]
      simp
    · rw [if_neg h]
      have hxs : xs ≠ [] := by
        intro hx
        subst hx
        exact h rfl
      simpa [Nat.succ_lt_succ_iff] using ih hxs

theorem argmaxIdx_is_max : ∀ (l : List ℚ) (j : Nat), j < l.length →
    l.getD j 0 ≤ l.getD (argmaxIdx l) 0 := by
  intro l
  induction l with
  | nil => intro j hj; simp at hj
  | cons x xs ih =>
    intro j hj
    unfold argmaxIdx
    by_cases h : xs.all (fun v => v ≤ x) = true
    · rw [if_pos h]
      cases j with
      | zero => simp
      | succ j =>
        simp only [List.getD_cons_succ, List.getD_cons_zero]
        have hj' : j < xs.length := by simpa using hj
        have hmem : xs.getD j 0 ∈ xs := by
          rw [List.getD_eq_getElem xs 0 hj']
          exact List.getElem_mem hj'
        simpa using List.all_eq_true.mp h _ hmem
    · rw [if_neg h]
      have hxs : xs ≠ [] := by
        intro hx
        subst hx
        exact h rfl
      simp only [List.getD_cons_succ]
      cases j with
      | zero =>
        simp only [List.getD_cons_zero]
        obtain ⟨v, hv, hvx⟩ := by
          simpa using (List.all_eq_true (l := xs)).not.mp h
        obtain ⟨i, hi, hiv⟩ := List.mem_iff_getElem.mp hv
        have h1 : x ≤ xs.getD i 0 := by
          rw [List.getD_eq_getElem xs 0 hi, hiv]
          exact le_of_lt hvx
        exact h1.trans (ih i hi)
      | succ j =>
        exact ih j (by simpa using hj)

theorem argmaxIdx_first : ∀ (l : List ℚ) (j : Nat), j < argmaxIdx l →
    l.getD j 0 < l.getD (argmaxIdx l) 0 := by
  intro l
  induction l with
  | nil => intro j hj; simp [argmaxIdx] at hj
  | cons x xs ih =>
    intro j hj
    unfold argmaxIdx at hj ⊢
    by_cases h : xs.all (fun v => v ≤ x) = true
    · rw [if_pos h] at hj
      exact absurd hj (Nat.not_lt_zero j)
    · rw [if_neg h] at hj ⊢
      simp only [List.getD_cons_succ]
      cases j with
      | zero =>
        simp only [List.getD_cons_zero]
        obtain ⟨v, hv, hvx⟩ := by
          simpa using (List.all_eq_true (l := xs)).not.mp h
        obtain ⟨i, hi, hiv⟩ := List.mem_iff_getElem.mp hv
        have h1 : x < xs.getD i 0 := by
          rw [List.getD_eq_getElem xs 0 hi, hiv]
          exact hvx
        exact h1.trans_le (argmaxIdx_is_max xs i hi)
      | succ j =>
        exact ih j (by omega)

/-! ### Section statistics: the merged stats agree with a direct recount -/

/-- Number of spaces of `spaces_data` in section `s`. -/
def secCount (sd : SpacesData) (s : String) : Nat :=
  (sd.filter (fun e => get_section_from_space_id e.1 = s)).length

/-- Number of occupied spaces of `spaces_data` in section `s`. -/
def secOccCount (sd : SpacesData) (s : String) : Nat :=
  ((sd.filter (fun e => get_section_from_space_id e.1 = s)).filter
    (fun e => e.2.occupied)).length

theorem lookupKey_bumpSection_other {sec s : String} (hne : s ≠ sec)
    (m : List (String × (Nat × Nat))) (occ : Bool) :
    lookupKey s (bumpSection m sec occ) = lookupKey s m := by
  unfold bumpSection
  cases lookupKey sec m <;> exact lookupKey_setKey_other hne _ m

theorem lookupKey_bumpSection_self (m : List (String × (Nat × Nat)))
    (s : String) (occ : Bool) :
    lookupKey s (bumpSection m s occ)
      = some (match lookupKey s m with
          | none => (1, if occ then 1 else 0)
          | some t => (t.1 + 1, if occ then t.2 + 1 else t.2)) := by
  unfold bumpSection
  cases h : lookupKey s m <;> simp [h, lookupKey_setKey_self]

theorem bump_foldl_lookup (s : String) : ∀ (l : SpacesData)
    (m : List (String × (Nat × Nat))),
    lookupKey s (l.foldl
        (fun m e => bumpSection m (get_section_from_space_id e.1)
          e.2.occupied) m)
      = (match lookupKey s m with
         | some t => some (t.1 + secCount l s, t.2 + secOccCount l s)
         | none => if secCount l s = 0 then none
             else some (secCount l s, secOccCount l s)) := by
  intro l
  induction l with
  | nil =>
    intro m
    cases h : lookupKey s m <;> simp [secCount, secOccCount, h]
  | cons e tl ih =>
    intro m
    rw [List.foldl_cons, ih]
    by_cases hsec : get_section_from_space_id e.1 = s
    · rw [hsec, lookupKey_bumpSection_self]
      cases hm : lookupKey s m with
      | none =>
        by_cases hocc : e.2.occupied = true <;>
          (simp [secCount, secOccCount, List.filter_cons, hsec, hocc]
           ; omega)
      | some t =>
        by_cases hocc : e.2.occupied = true <;>
          (simp [secCount, secOccCount, List.filter_cons, hsec, hocc]
           ; omega)
    · rw [lookupKey_bumpSection_other (fun h => hsec h.symm),
        show secCount (e :: tl) s = secCount tl s by
          simp [secCount, List.filter_cons, hsec],
        show secOccCount (e :: tl) s = secOccCount tl s by
          simp [secOccCount, List.filter_cons, hsec]]

theorem buildSections_lookup (sd : SpacesData) (s : String)
    (h : secCount sd s ≠ 0) :
    lookupKey s (buildSections sd)
      = some (secCount sd s, secOccCount sd s) := by
  unfold buildSections
  rw [bump_foldl_lookup]
  simp [lookupKey, h]

theorem map_fst_setKey {α : Type} [DecidableEq α] {β : Type} (k : α)
    (v : β) : ∀ l : List (α × β),
      (setKey k v l).map Prod.fst
        = if k ∈ l.map Prod.fst then l.map Prod.fst
          else l.map Prod.fst ++ [k] := by
  intro l
  induction l with
  | nil => simp [setKey]
  | cons hd tl ih =>
    obtain ⟨k', v'⟩ := hd
    by_cases h : k' = k
    · subst h
      simp [setKey]
    · rw [show setKey k v ((k', v') :: tl) = (k', v') :: setKey k v tl by
        rw [setKey, if_neg h]]
      rw [List.map_cons, ih, List.map_cons]
      by_cases hm : k ∈ tl.map Prod.fst
      · simp [hm, List.mem_cons, h, Ne.symm h]
      · simp [hm, List.mem_cons, h, Ne.symm h]

theorem setKey_keys_nodup {α : Type} [DecidableEq α] {β : Type} (k : α)
    (v : β) (l : List (α × β)) (hnd : (l.map Prod.fst).Nodup) :
    ((setKey k v l).map Prod.fst).Nodup := by
  rw [map_fst_setKey]
  by_cases hm : k ∈ l.map Prod.fst
  · simpa [hm] using hnd
  · simp [hm, List.nodup_append, hnd]

theorem buildSections_keys_nodup_aux : ∀ (l : SpacesData)
    (m : List (String × (Nat × Nat))), (m.map Prod.fst).Nodup →
    ((l.foldl (fun m e => bumpSection m (get_section_from_space_id e.1)
        e.2.occupied) m).map Prod.fst).Nodup := by
  intro l
  induction l with
  | nil => intro m hm; exact hm
  | cons e tl ih =>
    intro m hm
    rw [List.foldl_cons]
    refine ih _ ?_
    unfold bumpSection
    cases lookupKey (get_section_from_space_id e.1) m <;>
      exact setKey_keys_nodup _ _ m hm

theorem buildSections_keys_nodup (sd : SpacesData) :
    ((buildSections sd).map Prod.fst).Nodup :=
  buildSections_keys_nodup_aux sd [] (by simp)

theorem lookupKey_foldl_setKey_untouched {α : Type} [DecidableEq α]
    {β γ : Type} (f : α × γ → β) (l : List (α × γ)) :
    ∀ (acc : List (α × β)) (k : α), k ∉ l.map Prod.fst →
      lookupKey k (l.foldl (fun ps e => setKey e.1 (f e) ps) acc)
        = lookupKey k acc := by
  induction l with
  | nil => intro acc k _; rfl
  | cons hd tl ih =>
    intro acc k hk
    rw [List.map_cons, List.mem_cons] at hk
    push_neg at hk
    rw [List.foldl_cons, ih _ k hk.2, lookupKey_setKey_other hk.1]

theorem lookupKey_foldl_setKey_of_mem {α : Type} [DecidableEq α]
    {β γ : Type} (f : α × γ → β) (l : List (α × γ)) :
    ∀ (acc : List (α × β)) (k : α) (v : γ), (k, v) ∈ l →
      (l.map Prod.fst).Nodup →
      lookupKey k (l.foldl (fun ps e => setKey e.1 (f e) ps) acc)
        = some (f (k, v)) := by
  induction l with
  | nil => intro _ _ _ h; exact absurd h (List.not_mem_nil _)
  | cons hd tl ih =>
    intro acc k v hmem hnd
    rw [List.map_cons, List.nodup_cons] at hnd
    rw [List.mem_cons] at hmem
    rcases hmem with heq | hmem
    · subst heq
      rw [List.foldl_cons, lookupKey_foldl_setKey_untouched f tl _ k hnd.1]
      exact lookupKey_setKey_self _ _ acc
    · rw [List.foldl_cons]
      exact ih _ k v hmem hnd.2

theorem update_parking_stats_lookup (stats : List (String × SectionStats))
    (sd : SpacesData) (s : String) (h : secCount sd s ≠ 0) :
    lookupKey s (update_parking_stats stats sd)
      = some ⟨secCount sd s, secOccCount sd s,
          (secOccCount sd s : ℚ) / (secCount sd s : ℚ)⟩ := by
  have h1 := buildSections_lookup sd s h
  have hmem := lookupKey_mem h1
  have hnd := buildSections_keys_nodup sd
  unfold update_parking_stats
  rw [lookupKey_foldl_setKey_of_mem _ (buildSections sd) stats s _ hmem hnd]
  simp [Nat.pos_of_ne_zero h]

theorem balancedScores_eq_spec (stats : List (String × SectionStats))
    (sd : SpacesData) (w : ℚ) (pref : Option String) (scores : List ℚ) :
    balancedScores (update_parking_stats stats sd) w pref
        (((sd.filter (fun e => !e.2.occupied)).map Prod.fst).zip scores)
      = specFinalScores sd w scores pref := by
  unfold balancedScores specFinalScores
  apply List.map_congr_left
  intro e he
  obtain ⟨e1, e2⟩ := e
  have hid : e1 ∈ (sd.filter (fun e => !e.2.occupied)).map Prod.fst :=
    (List.of_mem_zip he).1
  obtain ⟨a, ha, hae⟩ := List.mem_map.mp hid
  have hsd : a ∈ sd := (List.mem_filter.mp ha).1
  have hcnt : secCount sd (get_section_from_space_id e1) ≠ 0 := by
    have hmemf : a ∈ sd.filter
        (fun x => get_section_from_space_id x.1
          = get_section_from_space_id e1) := by
      refine List.mem_filter.mpr ⟨hsd, ?_⟩
      simp [hae]
    intro h0
    unfold secCount at h0
    rw [List.length_eq_zero] at h0
    rw [h0] at hmemf
    exact List.not_mem_nil a hmemf
  have hlk := update_parking_stats_lookup stats sd
    (get_section_from_space_id e1) hcnt
  simp only [hlk, sectionOccupancyRate, secCount, secOccCount]

/-- C6 (confirmed): when the model's batched prediction succeeds with one
score per available space, `allocate_parking` returns the space at the
**first** argmax of the claimed final scores
`((1−w)·modelScore + w·(1−sectionOccupancyRate)) · preferenceMultiplier`
(multiplier 1.2 exactly when a preferred section is supplied and matches,
occupancy rates recomputed directly from the given occupancy map), together
with that score; the returned index is a maximum and strictly exceeds every
earlier score. -/
theorem c6_final_score_formula (stats : List (String × SectionStats))
    (w : ℚ) (predict : List (List ℚ) → Except PyErr (List ℚ))
    (now vehicle_size : ℚ) (sd : SpacesData) (pref : Option String)
    (scores : List ℚ)
    (hav : (sd.filter (fun e => !e.2.occupied)).isEmpty = false)
    (hpred : predict ((sd.filter (fun e => !e.2.occupied)).map
        (featRow now vehicle_size)) = .ok scores)
    (hlen : scores.length = (sd.filter (fun e => !e.2.occupied)).length) :
    allocate_parking stats w predict now sd vehicle_size pref
      = .ok (some (((sd.filter (fun e => !e.2.occupied)).map Prod.fst).getD
            (argmaxIdx (specFinalScores sd w scores pref)) ""),
          (specFinalScores sd w scores pref).getD
            (argmaxIdx (specFinalScores sd w scores pref)) 0) ∧
    (∀ j, j < (specFinalScores sd w scores pref).length →
      (specFinalScores sd w scores pref).getD j 0
        ≤ (specFinalScores sd w scores pref).getD
            (argmaxIdx (specFinalScores sd w scores pref)) 0) ∧
    (∀ j, j < argmaxIdx (specFinalScores sd w scores pref) →
      (specFinalScores sd w scores pref).getD j 0
        < (specFinalScores sd w scores pref).getD
            (argmaxIdx (specFinalScores sd w scores pref)) 0) := by
  have havne : sd.filter (fun e => !e.2.occupied) ≠ [] := by
    intro h0
    rw [h0] at hav
    exact absurd hav (by simp)
  have hlen2 : (specFinalScores sd w scores pref).length
      = (sd.filter (fun e => !e.2.occupied)).length := by
    simp [specFinalScores, hlen]
  have hne2 : (specFinalScores sd w scores pref).isEmpty = false := by
    have hne : specFinalScores sd w scores pref ≠ [] := by
      intro h0
      have := congrArg List.length h0
      rw [hlen2] at this
      simp only [List.length_nil] at this
      exact havne (List.length_eq_zero.mp this)
    cases hsf : specFinalScores sd w scores pref with
    | nil => exact absurd hsf hne
    | cons a l => rfl
  refine ⟨?_, fun j hj => argmaxIdx_is_max _ j hj,
    fun j hj => argmaxIdx_first _ j hj⟩
  simp only [allocate_parking, hav, Bool.false_eq_true, if_false, hpred]
  rw [balancedScores_eq_spec stats sd w pref scores]
  simp only [hne2, Bool.false_eq_true, if_false]

/-- Scenario-C occupancy map: section A1 with 5 spaces of which 4 are
occupied (rate 0.8, one free space `S5-A1`), section B1 with 5 spaces of
which 1 is occupied (rate 0.2, first free space `S7-B1`). -/
def sdC : SpacesData :=
  [("S1-A1", ⟨true, 0, 1⟩), ("S2-A1", ⟨true, 0, 1⟩), ("S3-A1", ⟨true, 0, 1⟩),
    ("S4-A1", ⟨true, 0, 1⟩), ("S5-A1", ⟨false, 0, 1⟩),
    ("S6-B1", ⟨true, 0, 1⟩), ("S7-B1", ⟨false, 0, 1⟩),
    ("S8-B1", ⟨false, 0, 1⟩), ("S9-B1", ⟨false, 0, 1⟩),
    ("S10-B1", ⟨false, 0, 1⟩)]

/-- A model that scores every candidate ½ (equal model scores). -/
def predC : List (List ℚ) → Except PyErr (List ℚ) :=
  fun rows => .ok (rows.map (fun _ => 1 / 2))

/-- The scores `predC` returns on Scenario C's feature rows. -/
def scoresC : List ℚ :=
  ((sdC.filter (fun e => !e.2.occupied)).map (featRow 0 1)).map
    (fun _ => 1 / 2)

/-- C6 witness (Scenario C): equal model scores, section occupancies 0.8
and 0.2, `w = 0.3`, no preference — the first free space of the
0.2-occupancy section wins, with final score
`(0.7·0.5 + 0.3·0.8) = 0.59`. -/
theorem c6_final_score_formula_witness :
    allocate_parking [] (3 / 10) predC 0 sdC 1 none
      = .ok (some "S7-B1", 59 / 100) := by
  have h := (c6_final_score_formula [] (3 / 10) predC 0 1 sdC none scoresC
    rfl rfl rfl).1
  rw [h]
  have hA : sectionOccupancyRate sdC "A1" = 4 / 5 := by
    show ((((sdC.filter
        (fun e => get_section_from_space_id e.1 = "A1")).filter
          (fun e => e.2.occupied)).length : ℚ)
      / ((sdC.filter
        (fun e => get_section_from_space_id e.1 = "A1")).length : ℚ)) = 4 / 5
    norm_num [show (sdC.filter
        (fun a => a.2.occupied
          && decide (get_section_from_space_id a.1 = "A1"))).length = 4
        from rfl,
      show (sdC.filter
        (fun e => get_section_from_space_id e.1 = "A1")).length = 5 from rfl]
  have hB : sectionOccupancyRate sdC "B1" = 1 / 5 := by
    show ((((sdC.filter
        (fun e => get_section_from_space_id e.1 = "B1")).filter
          (fun e => e.2.occupied)).length : ℚ)
      / ((sdC.filter
        (fun e => get_section_from_space_id e.1 = "B1")).length : ℚ)) = 1 / 5
    norm_num [show (sdC.filter
        (fun a => a.2.occupied
          && decide (get_section_from_space_id a.1 = "B1"))).length = 1
        from rfl,
      show (sdC.filter
        (fun e => get_section_from_space_id e.1 = "B1")).length = 5 from rfl]
  have hspec : specFinalScores sdC (3 / 10) scoresC none
      = [((1 - 3 / 10) * (1 / 2)
            + 3 / 10 * (1 - sectionOccupancyRate sdC "A1")) * 1,
          ((1 - 3 / 10) * (1 / 2)
            + 3 / 10 * (1 - sectionOccupancyRate sdC "B1")) * 1,
          ((1 - 3 / 10) * (1 / 2)
            + 3 / 10 * (1 - sectionOccupancyRate sdC "B1")) * 1,
          ((1 - 3 / 10) * (1 / 2)
            + 3 / 10 * (1 - sectionOccupancyRate sdC "B1")) * 1,
          ((1 - 3 / 10) * (1 / 2)
            + 3 / 10 * (1 - sectionOccupancyRate sdC "B1")) * 1] := rfl
  rw [hspec, hA, hB]
  have hval : [((1 - 3 / 10) * (1 / 2) + 3 / 10 * (1 - 4 / 5)) * 1,
      ((1 - 3 / 10) * (1 / 2) + 3 / 10 * (1 - 1 / 5)) * 1,
      ((1 - 3 / 10) * (1 / 2) + 3 / 10 * (1 - 1 / 5)) * 1,
      ((1 - 3 / 10) * (1 / 2) + 3 / 10 * (1 - 1 / 5)) * 1,
      ((1 - 3 / 10) * (1 / 2) + 3 / 10 * (1 - 1 / 5)) * 1]
      = [(41 : ℚ) / 100, 59 / 100, 59 / 100, 59 / 100, 59 / 100] := by
    norm_num
  rw [hval]
  have harg : argmaxIdx [(41 : ℚ) / 100, 59 / 100, 59 / 100, 59 / 100,
      59 / 100] = 1 := by
    have h1 : ¬((59 : ℚ) / 100 ≤ 41 / 100) := by norm_num
    have h2 : argmaxIdx [(59 : ℚ) / 100, 59 / 100, 59 / 100, 59 / 100]
        = 0 := by
      unfold argmaxIdx
      rw [if_pos (by simp)]
    unfold argmaxIdx
    rw [if_neg (by simp [h1]), h2]
  rw [harg]
  rfl

/-! ## `ParkingManager.load_parking_positions` (parking_manager.py:102-163)

The pickled file content is external input: absent file, a non-list pickle
(raises `TypeError`, caught by the outer `except`), or a list of entries
each of which is either a well-formed numeric 4-tuple or malformed.
Coordinates are modelled as integers (drawn rectangles are pixel
coordinates; for integers the `tuple(map(int, pos))` dedup key is the
tuple itself). -/

/-- One entry of the pickled position list. -/
inductive LoadEntry where
  | tup4 (x y w h : Int)
  | malformed
deriving DecidableEq, Repr

/-- The pickled file content. -/
inductive LoadedData where
  | posL (entries : List LoadEntry)
  | notList
deriving DecidableEq, Repr

/-- The manager state fields written by `load_parking_positions`, plus the
boolean the method returns. -/
structure LoadResult where
  success : Bool
  posList : List Rect
  total_spaces : Nat
  free_spaces : Nat
  occupied_spaces : Nat
deriving DecidableEq, Repr

/-- The validation loop: keep 4-tuples of numbers with
`x ≥ 0, y ≥ 0, w > 0, h > 0`; drop everything else silently. -/
def validatePositions (entries : List LoadEntry) : List Rect :=
  entries.filterMap (fun e =>
    match e with
    | .tup4 x y w h =>
      if 0 ≤ x ∧ 0 ≤ y ∧ 0 < w ∧ 0 < h then some ⟨x, y, w, h⟩ else none
    | .malformed => none)

/-- The duplicate-removal loop: keep the first occurrence of each
rectangle. -/
def dedupPositions (l : List Rect) : List Rect :=
  l.foldl (fun acc pos => if pos ∈ acc then acc else acc ++ [pos]) []

/-- `load_parking_positions`: validate and deduplicate the stored list,
then set `total_spaces` to the loaded count, `free_spaces := 0` and
`occupied_spaces := total_spaces`; reset everything to zero on a missing
file or any failure. -/
def load_parking_positions (file : Option LoadedData) : LoadResult :=
  match file with
  | none => ⟨false, [], 0, 0, 0⟩
  | some .notList => ⟨false, [], 0, 0, 0⟩
  | some (.posL entries) =>
    let unique := dedupPositions (validatePositions entries)
    ⟨true, unique, unique.length, 0, unique.length⟩

theorem dedup_foldl_spec (l : List Rect) : ∀ acc : List Rect, acc.Nodup →
    (l.foldl (fun acc pos => if pos ∈ acc then acc else acc ++ [pos])
        acc).Nodup ∧
    (∀ r, r ∈ l.foldl
        (fun acc pos => if pos ∈ acc then acc else acc ++ [pos]) acc
      ↔ r ∈ acc ∨ r ∈ l) := by
  induction l with
  | nil =>
    intro acc hnd
    exact ⟨hnd, fun r => by simp⟩
  | cons hd tl ih =>
    intro acc hnd
    rw [List.foldl_cons]
    by_cases hm : hd ∈ acc
    · rw [if_pos hm]
      obtain ⟨h1, h2⟩ := ih acc hnd
      refine ⟨h1, fun r => ?_⟩
      rw [h2 r]
      constructor
      · rintro (h | h)
        · exact Or.inl h
        · exact Or.inr (List.mem_cons_of_mem _ h)
      · rintro (h | h)
        · exact Or.inl h
        · rcases List.mem_cons.mp h with h | h
          · exact Or.inl (h ▸ hm)
          · exact Or.inr h
    · rw [if_neg hm]
      obtain ⟨h1, h2⟩ := ih (acc ++ [hd]) (by simp [List.nodup_append, hnd, hm])
      refine ⟨h1, fun r => ?_⟩
      rw [h2 r]
      simp only [List.mem_append, List.mem_singleton, List.mem_cons]
      tauto

/-- C10 (confirmed): a successful `load_parking_positions` returns `True`
with `posList` holding exactly the distinct valid stored rectangles (no
duplicates, same membership as the validated entries),
`total_spaces = posList.length`, `free_spaces = 0` and
`occupied_spaces = total_spaces` — every loaded space presumed occupied —
and `allocate_parking` on any occupancy map with no free space returns
`(None, 0)`. -/
theorem c10_load_presumes_occupied (entries : List LoadEntry) :
    (load_parking_positions (some (.posL entries))).success = true ∧
    (load_parking_positions (some (.posL entries))).posList.Nodup ∧
    (∀ r, r ∈ (load_parking_positions (some (.posL entries))).posList
      ↔ r ∈ validatePositions entries) ∧
    (load_parking_positions (some (.posL entries))).total_spaces
      = (load_parking_positions (some (.posL entries))).posList.length ∧
    (load_parking_positions (some (.posL entries))).free_spaces = 0 ∧
    (load_parking_positions (some (.posL entries))).occupied_spaces
      = (load_parking_positions (some (.posL entries))).total_spaces ∧
    (∀ (sd : SpacesData), (∀ e ∈ sd, e.2.occupied = true) →
      ∀ (stats : List (String × SectionStats)) (w : ℚ)
        (predict : List (List ℚ) → Except PyErr (List ℚ))
        (now vehicle_size : ℚ) (pref : Option String),
        allocate_parking stats w predict now sd vehicle_size pref
          = .ok (none, 0)) := by
  obtain ⟨hnd, hmem⟩ :=
    dedup_foldl_spec (validatePositions entries) [] List.nodup_nil
  refine ⟨rfl, hnd, ?_, rfl, rfl, rfl, ?_⟩
  · intro r
    rw [show (load_parking_positions (some (.posL entries))).posList
        = dedupPositions (validatePositions entries) from rfl,
      dedupPositions, hmem r]
    simp
  · intro sd hall stats w predict now vehicle_size pref
    have hf : sd.filter (fun e => !e.2.occupied) = [] := by
      rw [List.filter_eq_nil_iff]
      intro e he
      simp [hall e he]
    unfold allocate_parking
    rw [hf]
    rfl

/-- Concrete stored entries: two valid rectangles, one malformed record,
one negative rectangle, one duplicate. -/
def entriesW : List LoadEntry :=
  [.tup4 1 2 3 4, .malformed, .tup4 (-1) 0 5 5, .tup4 1 2 3 4,
    .tup4 0 0 2 2]

/-- A concrete all-occupied occupancy map. -/
def sdOcc : SpacesData := [("S1-A1", ⟨true, 0, 1⟩), ("S2-B1", ⟨true, 0, 2⟩)]

/-- C10 witness: loading the concrete entries keeps the two distinct valid
rectangles and presumes them occupied, and `allocate_parking` on the
all-occupied map returns `(None, 0)`. -/
theorem c10_load_presumes_occupied_witness :
    (load_parking_positions (some (.posL entriesW))).total_spaces = 2 ∧
    (load_parking_positions (some (.posL entriesW))).free_spaces = 0 ∧
    (load_parking_positions (some (.posL entriesW))).occupied_spaces = 2 ∧
    ((⟨1, 2, 3, 4⟩ : Rect) ∈ validatePositions entriesW ∧
      (⟨1, 2, 3, 4⟩ : Rect)
        ∈ (load_parking_positions (some (.posL entriesW))).posList) ∧
    allocate_parking [] (3 / 10) predC 0 sdOcc 1 none = .ok (none, 0) := by
  refine ⟨by decide, (c10_load_presumes_occupied entriesW).2.2.2.2.1,
    by decide, ⟨by decide, ?_⟩, ?_⟩
  · exact ((c10_load_presumes_occupied entriesW).2.2.1 ⟨1, 2, 3, 4⟩).mpr
      (by decide)
  · exact (c10_load_presumes_occupied entriesW).2.2.2.2.2.2 sdOcc (by decide)
      [] (3 / 10) predC 0 1 none

/-! ## `add_feedback` and `_retrain_model` (allocation_engine.py:235-308)

`add_feedback` acquires `self.lock` (`with self.lock:` at line 244) and,
when the buffered feedback reaches 10 entries, calls `_retrain_model`,
which acquires the **same** `threading.Lock` again at line 276.
`threading.Lock` is not reentrant, so that second acquisition by the thread
already holding the lock blocks forever.  The embedding tracks the lock
explicitly and reports a blocked call as `deadlocked` with the shared state
at the moment of blocking; external effects (`model.fit`, pickling) are
counted when the retrain body completes. -/

/-- An `allocation_history` entry. -/
structure AllocEntry where
  timestamp : ℚ
  space_id : String
  vehicle_size : ℚ
  score : ℚ
  features : List ℚ
deriving Repr

/-- A `feedback_data` entry. -/
structure FeedbackEntry where
  timestamp : ℚ
  space_id : String
  sectionTag : String
  vehicle_size : ℚ
  features : List ℚ
  successful : Nat
deriving Repr

/-- The engine state touched by the feedback path.  `retrainInvoked` counts
entries into `_retrain_model`, `retrainCompleted` completed retrain bodies,
`modelSaved` completed model pickles. -/
structure EngineFb where
  lockHeld : Bool
  allocation_history : List AllocEntry
  feedback_data : List FeedbackEntry
  retrainInvoked : Nat
  retrainCompleted : Nat
  modelSaved : Nat
deriving Repr

/-- Outcome of a feedback call: normal return, or blocked forever on the
lock (the carried state is the shared memory at the moment of blocking). -/
inductive FbResult where
  | completed (s : EngineFb)
  | deadlocked (s : EngineFb)
deriving Repr

/-- `_retrain_model`: return immediately on an empty buffer; otherwise
acquire `self.lock` — a self-deadlock when the caller already holds it —
then fit, pickle, clear the buffer and release. -/
def retrain_model (s0 : EngineFb) : FbResult :=
  let s := { s0 with retrainInvoked := s0.retrainInvoked + 1 }
  if s.feedback_data.isEmpty then .completed s
  else if s.lockHeld then .deadlocked s
  else
    .completed { s with
      modelSaved := s.modelSaved + 1,
      feedback_data := [],
      retrainCompleted := s.retrainCompleted + 1 }

/-- `add_feedback`: under `self.lock`, find the newest allocation-history
entry for the space (searching the history in reverse), append a feedback
entry built from its feature vector, and retrain synchronously once the
buffer holds at least 10 entries. -/
def add_feedback (s0 : EngineFb) (space_id : String) (vehicle_size : ℚ)
    (successful : Bool) (now : ℚ) : FbResult :=
  if s0.lockHeld then .deadlocked s0
  else
    let s := { s0 with lockHeld := true }
    let sec := get_section_from_space_id space_id
    match s.allocation_history.reverse.find?
        (fun e => e.space_id = space_id) with
    | none => .completed { s with lockHeld := false }
    | some alloc =>
      let fb : FeedbackEntry :=
        ⟨now, space_id, sec, vehicle_size, alloc.features,
          if successful then 1 else 0⟩
      let s := { s with feedback_data := s.feedback_data ++ [fb] }
      if 10 ≤ s.feedback_data.length then
        match retrain_model s with
        | .completed s1 => .completed { s1 with lockHeld := false }
        | .deadlocked s1 => .deadlocked s1
      else .completed { s with lockHeld := false }

/-- Engine state with an empty feedback buffer and one allocation-history
entry for space `"S1-A1"` (so every feedback call finds a match). -/
def fbInit : EngineFb :=
  ⟨false, [⟨0, "S1-A1", 1, 1 / 2, [10, 5, 1]⟩], [], 0, 0, 0⟩

/-- One more matching feedback call (a no-op after a deadlock: the blocked
call never returns). -/
def fbStep (r : FbResult) : FbResult :=
  match r with
  | .completed s => add_feedback s "S1-A1" 1 true 0
  | .deadlocked s => .deadlocked s

/-- The state after `n` matching feedback calls from `fbInit`. -/
def fbRun : Nat → FbResult
  | 0 => .completed fbInit
  | n + 1 => fbStep (fbRun n)

/-- C1: evaluation of the code at the failing input.  Each of the first
nine matching `add_feedback` calls returns normally, appends exactly one
feedback entry and triggers no retraining; the tenth call enters
`_retrain_model` exactly once and then **deadlocks** re-acquiring the
non-reentrant `threading.Lock` already held by `add_feedback`: the retrain
body never completes, the model is never persisted, the buffer is *not*
cleared (still 10 entries) and the lock is left held. -/
theorem c1_tenth_feedback_deadlocks :
    ((List.range 10).map (fun n =>
      match fbRun n with
      | .completed s => some (s.feedback_data.length, s.retrainInvoked)
      | .deadlocked _ => none))
      = (List.range 10).map (fun n => some (n, 0)) ∧
    (match fbRun 10 with
      | .completed _ => none
      | .deadlocked s => some (s.feedback_data.length, s.retrainInvoked,
          s.retrainCompleted, s.modelSaved, s.lockHeld))
      = some (10, 1, 0, 0, true) :=
  ⟨rfl, rfl⟩

/-! ## `VehicleTracker._process_tracks` (vehicle_tracker.py:103-169)

The detector and the identity associator are pluggable ML capabilities;
their output — the `(track_id, bbox, class_id)` list of one frame — is the
input of `_process_tracks`.  Since the per-frame loop only folds the shared
state over the tracks, a sequence of `_process_tracks` calls is the fold
over the concatenated track lists, and all per-frame properties are stated
over that fold. -/

/-- A `tracked_vehicles` record.  `first_seen` is a wall-clock timestamp
never read by the counting logic and is omitted. -/
structure TrackRec where
  positions : List (Int × Int)
  counted : Bool
  class_id : Int
deriving Repr

/-- The tracker state touched by `_process_tracks`. -/
structure TrState where
  tracked_vehicles : List (Nat × TrackRec)
  vehicle_count : Nat
deriving Repr

/-- One track of a frame: `(track_id, (x1, y1, x2, y2), class_id)`. -/
structure Track where
  track_id : Nat
  bbox : Int × Int × Int × Int
  class_id : Int
deriving Repr

/-- Centroid `((x1 + x2) // 2, (y1 + y2) // 2)` (Python floor division). -/
def centroidOf (bbox : Int × Int × Int × Int) : Int × Int :=
  ((bbox.1 + bbox.2.2.1).fdiv 2, (bbox.2.1 + bbox.2.2.2).fdiv 2)

/-- `positions[-2][1]` and `positions[-1][1]` when at least two positions
exist. -/
def lastTwoY (ps : List (Int × Int)) : Option (Int × Int) :=
  match ps.reverse with
  | c :: p :: _ => some (p.2, c.2)
  | _ => none

/-- The history update of one track: create the record on a new id, else
append the centroid and keep only the last 30 positions. -/
def updatePositions (s : TrState) (t : Track) : List (Nat × TrackRec) :=
  let c := centroidOf t.bbox
  match lookupKey t.track_id s.tracked_vehicles with
  | none => setKey t.track_id ⟨[c], false, t.class_id⟩ s.tracked_vehicles
  | some r =>
    let ps := r.positions ++ [c]
    let ps := if 30 < ps.length then ps.drop (ps.length - 30) else ps
    setKey t.track_id { r with positions := ps } s.tracked_vehicles

/-- Processing of one track: update its history, then — only if not yet
counted and with at least two stored positions — count a crossing when the
previous centroid was strictly above `line_height - offset` and the current
one strictly below `line_height + offset`, setting `counted`. -/
def processTrack (line_height offset : Int) (s : TrState) (t : Track) :
    TrState :=
  let tracked1 := updatePositions s t
  match lookupKey t.track_id tracked1 with
  | none => ⟨tracked1, s.vehicle_count⟩
  | some r =>
    let cross : Bool := !r.counted && decide (2 ≤ r.positions.length) &&
      (match lastTwoY r.positions with
       | some py => decide (py.1 < line_height - offset)
           && decide (line_height + offset < py.2)
       | none => false)
    if cross then
      ⟨setKey t.track_id { r with counted := true } tracked1,
        s.vehicle_count + 1⟩
    else ⟨tracked1, s.vehicle_count⟩

/-- A sequence of processed tracks (one or several frames' worth). -/
def processTracks (line_height offset : Int) (s : TrState)
    (ts : List Track) : TrState :=
  ts.foldl (processTrack line_height offset) s

/-- `reset_count`: zero the counter and clear all tracking history. -/
def reset_count (_ : TrState) : TrState := ⟨[], 0⟩

/-- The stored `counted` flag of a track id (`false` when unknown). -/
def countedIn (s : TrState) (id : Nat) : Bool :=
  match lookupKey id s.tracked_vehicles with
  | some r => r.counted
  | none => false

theorem lookup_updatePositions_self (s : TrState) (t : Track) :
    ∃ r', lookupKey t.track_id (updatePositions s t) = some r' ∧
      r'.counted = countedIn s t.track_id := by
  unfold updatePositions countedIn
  cases h : lookupKey t.track_id s.tracked_vehicles with
  | none => exact ⟨_, lookupKey_setKey_self _ _ _, rfl⟩
  | some r => exact ⟨_, lookupKey_setKey_self _ _ _, rfl⟩

theorem lookup_updatePositions_other (s : TrState) (t : Track) {id : Nat}
    (hid : id ≠ t.track_id) :
    lookupKey id (updatePositions s t) = lookupKey id s.tracked_vehicles := by
  unfold updatePositions
  cases h : lookupKey t.track_id s.tracked_vehicles with
  | none => exact lookupKey_setKey_other hid _ _
  | some r => exact lookupKey_setKey_other hid _ _

theorem processTrack_counted_other (lh off : Int) (s : TrState) (t : Track)
    {id : Nat} (hid : id ≠ t.track_id) :
    countedIn (processTrack lh off s t) id = countedIn s id := by
  obtain ⟨r', hr', _⟩ := lookup_updatePositions_self s t
  simp only [processTrack]
  rw [hr']
  dsimp only
  by_cases hc : (!r'.counted && decide (2 ≤ r'.positions.length) &&
      (match lastTwoY r'.positions with
       | some py => decide (py.1 < lh - off) && decide (lh + off < py.2)
       | none => false)) = true
  · rw [if_pos hc]
    unfold countedIn
    dsimp only
    rw [lookupKey_setKey_other hid, lookup_updatePositions_other s t hid]
  · rw [if_neg hc]
    unfold countedIn
    dsimp only
    rw [lookup_updatePositions_other s t hid]

theorem processTrack_counted_mono (lh off : Int) (s : TrState) (t : Track)
    (id : Nat) (h : countedIn s id = true) :
    countedIn (processTrack lh off s t) id = true := by
  by_cases hid : id = t.track_id
  · subst hid
    obtain ⟨r', hr', hrc⟩ := lookup_updatePositions_self s t
    have hr'c : r'.counted = true := hrc.trans h
    simp only [processTrack]
    rw [hr']
    dsimp only
    rw [hr'c]
    simp only [Bool.not_true, Bool.false_and, Bool.false_eq_true, if_false]
    unfold countedIn
    rw [hr']
    exact hr'c
  · rw [processTrack_counted_other lh off s t hid]
    exact h

theorem processTracks_counted_mono (lh off : Int) (ts : List Track) :
    ∀ (s : TrState) (id : Nat), countedIn s id = true →
      countedIn (processTracks lh off s ts) id = true := by
  induction ts with
  | nil => intro s id h; exact h
  | cons t ts ih =>
    intro s id h
    exact ih _ id (processTrack_counted_mono lh off s t id h)

theorem processTrack_count_eq (lh off : Int) (s : TrState) (t : Track) :
    (processTrack lh off s t).vehicle_count
      = s.vehicle_count +
        (if countedIn s t.track_id = false ∧
            countedIn (processTrack lh off s t) t.track_id = true
          then 1 else 0) := by
  obtain ⟨r', hr', hrc⟩ := lookup_updatePositions_self s t
  simp only [processTrack, hr']
  by_cases hc : (!r'.counted && decide (2 ≤ r'.positions.length) &&
      (match lastTwoY r'.positions with
       | some py => decide (py.1 < lh - off) && decide (lh + off < py.2)
       | none => false)) = true
  · rw [if_pos hc]
    have hold : countedIn s t.track_id = false := by
      rw [← hrc]
      simp only [Bool.and_eq_true, Bool.not_eq_true'] at hc
      exact hc.1.1
    have hnew : countedIn
        ⟨setKey t.track_id { r' with counted := true } (updatePositions s t),
          s.vehicle_count + 1⟩ t.track_id = true := by
      unfold countedIn
      rw [lookupKey_setKey_self]
    rw [if_pos ⟨hold, hnew⟩]
  · rw [if_neg hc]
    have hnew : countedIn ⟨updatePositions s t, s.vehicle_count⟩ t.track_id
        = r'.counted := by
      unfold countedIn
      rw [hr']
    rw [if_neg ?_]
    · simp
    · rintro ⟨h1, h2⟩
      rw [hnew] at h2
      rw [← hrc, h2] at h1
      exact Bool.noConfusion h1

theorem length_le_one_of_nodup_forall_eq {l : List Nat} (hnd : l.Nodup)
    (h : ∀ a ∈ l, ∀ b ∈ l, a = b) : l.length ≤ 1 := by
  match l with
  | [] => simp
  | [x] => simp
  | x :: y :: rest =>
    rw [List.nodup_cons] at hnd
    exact absurd (h x (List.mem_cons_self _ _)
        y (List.mem_cons_of_mem _ (List.mem_cons_self _ _)))
      (fun hxy => hnd.1 (hxy ▸ List.mem_cons_self _ _))

theorem processTracks_take_succ_le (lh off : Int) (s : TrState)
    (ts : List Track) (id : Nat) {j k : Nat} (hjk : j + 1 ≤ k)
    (h : countedIn (processTracks lh off s (ts.take (j + 1))) id = true) :
    countedIn (processTracks lh off s (ts.take k)) id = true := by
  have hsplit : ts.take k
      = ts.take (j + 1) ++ ((ts.take k).drop (j + 1)) := by
    conv_lhs => rw [← List.take_append_drop (j + 1) (ts.take k)]
    rw [List.take_take, Nat.min_eq_left hjk]
  rw [hsplit]
  unfold processTracks
  rw [List.foldl_append]
  exact processTracks_counted_mono lh off _ _ id h

/-- C8 (confirmed): per processed track, the stored `counted` flag is
monotone (never reset by processing, only by the explicit `reset_count`),
so over any sequence of processed tracks each id flips false→true at most
once; each processed track increments the vehicle count exactly when its
id's flag flips, so each track identity contributes at most one increment;
`reset_count` zeroes the counter and clears all identities. -/
theorem c8_counted_at_most_once :
    (∀ (lh off : Int) (s : TrState) (t : Track) (id : Nat),
      countedIn s id = true →
      countedIn (processTrack lh off s t) id = true) ∧
    (∀ (lh off : Int) (s : TrState) (ts : List Track) (id : Nat),
      countedIn s id = true →
      countedIn (processTracks lh off s ts) id = true) ∧
    (∀ (lh off : Int) (s : TrState) (t : Track),
      (processTrack lh off s t).vehicle_count
        = s.vehicle_count +
          (if countedIn s t.track_id = false ∧
              countedIn (processTrack lh off s t) t.track_id = true
            then 1 else 0)) ∧
    (∀ (lh off : Int) (s : TrState) (ts : List Track) (id : Nat),
      ((List.range ts.length).filter (fun k =>
          !countedIn (processTracks lh off s (ts.take k)) id &&
          countedIn (processTracks lh off s (ts.take (k + 1))) id)).length
        ≤ 1) ∧
    (∀ (s : TrState) (id : Nat),
      countedIn (reset_count s) id = false ∧
        (reset_count s).vehicle_count = 0) := by
  refine ⟨processTrack_counted_mono, fun lh off s ts id =>
    processTracks_counted_mono lh off ts s id, processTrack_count_eq,
    ?_, fun s id => ⟨rfl, rfl⟩⟩
  intro lh off s ts id
  apply length_le_one_of_nodup_forall_eq (List.Nodup.filter _ (List.nodup_range _))
  intro a ha b hb
  rw [List.mem_filter] at ha hb
  obtain ⟨-, hpa⟩ := ha
  obtain ⟨-, hpb⟩ := hb
  rw [Bool.and_eq_true, Bool.not_eq_true'] at hpa hpb
  by_contra hne
  rcases Nat.lt_or_ge a b with hab | hab
  · have := processTracks_take_succ_le lh off s ts id hab hpa.2
    rw [hpb.1] at this
    exact Bool.noConfusion this
  · have hba : b < a := lt_of_le_of_ne hab (fun h => hne h.symm)
    have := processTracks_take_succ_le lh off s ts id hba hpb.2
    rw [hpa.1] at this
    exact Bool.noConfusion this

/-- A concrete tracker state: id 1 already counted. -/
def trW : TrState := ⟨[(1, ⟨[(5, 50)], true, 3⟩)], 1⟩

/-- A concrete frame track for id 1 sitting below the line. -/
def tW : Track := ⟨1, (0, 120, 10, 130), 3⟩

/-- Three frames of id 2 oscillating around the line `y = 100 ± 10`:
above, below (a crossing), above again. -/
def tsW : List Track :=
  [⟨2, (0, 80, 10, 86), 3⟩, ⟨2, (0, 120, 10, 126), 3⟩,
    ⟨2, (0, 80, 10, 86), 3⟩]

/-- C8 witness: an already-counted id stays counted through another
processed track, and over the concrete oscillating three-frame sequence the
id flips at most once. -/
theorem c8_counted_at_most_once_witness :
    countedIn trW 1 = true ∧
    countedIn (processTrack 100 10 trW tW) 1 = true ∧
    ((List.range tsW.length).filter (fun k =>
        !countedIn (processTracks 100 10 trW (tsW.take k)) 2 &&
        countedIn (processTracks 100 10 trW (tsW.take (k + 1))) 2)).length
      ≤ 1 :=
  ⟨by decide, c8_counted_at_most_once.1 100 10 trW tW 1 (by decide),
    c8_counted_at_most_once.2.2.2.1 100 10 trW tsW 2⟩

end SmartParking
